import Mathlib

/-!
Verification development for the `ion-go` repository: a scanner
(`src/ion/scanner.go`), a recursive-descent parser (`src/ion/parser.go`) and
a value model with a renderer (`src/ion/value.go`), shallowly embedded over
`List Char` input streams.  Go's `bufio` reader is modelled by a list of
characters: `read` takes the head (returning the rune 0 at end of input,
exactly as the Go helper does), `unread` is modelled by not consuming the
head.  A real U+0000 character in the input compares equal to the Go code's
`eof` sentinel; the embedding reproduces that behaviour faithfully.
-/

namespace Ion

/-- Token kinds, from the `Token` constants in scanner.go. -/
inductive Token where
  | ILLEGAL
  | EOF
  | WHITESPACE
  | COMMA
  | COLON
  | DOUBLE_COLON
  | SYMBOL
  | STRING
  | OPEN_BRACE
  | CLOSE_BRACE
  | OPEN_BRACKET
  | CLOSE_BRACKET
  | OPEN_PAREN
  | CLOSE_PAREN
  | NUMBER
deriving DecidableEq, Repr

/-- The Go code's `eof = rune(0)` sentinel. -/
def eofCh : Char := Char.ofNat 0

/-- Single quote character. -/
def squote : Char := Char.ofNat 39

/-- Double quote character. -/
def dquote : Char := Char.ofNat 34

/-- Backslash character. -/
def bslash : Char := Char.ofNat 92

/-- Newline character. -/
def nlCh : Char := Char.ofNat 10

/-- Tab character. -/
def tabCh : Char := Char.ofNat 9

/-- Carriage-return character. -/
def crCh : Char := Char.ofNat 13

/-- Opening brace character. -/
def obraceCh : Char := Char.ofNat 123

/-- Closing brace character. -/
def cbraceCh : Char := Char.ofNat 125

/-- scanner.go `isWhitespace`: space, tab or newline. -/
def isWhitespace (ch : Char) : Bool := ch = ' ' || ch = tabCh || ch = nlCh

/-- scanner.go `isLetter`. -/
def isLetter (ch : Char) : Bool :=
  ('a' ≤ ch && ch ≤ 'z') || ('A' ≤ ch && ch ≤ 'Z')

/-- scanner.go `isDigit`. -/
def isDigit (ch : Char) : Bool := '0' ≤ ch && ch ≤ '9'

/-- scanner.go `skipLine`: consume characters until (and including) a
newline, the `eof` rune, or true end of input. -/
def skipLine : List Char → List Char
  | [] => []
  | c :: rest => if c = eofCh || c = nlCh then rest else skipLine rest

/-- The loop of scanner.go `scanWhitespace`: keep reading while whitespace;
a read `eof` rune is consumed without unreading, a non-whitespace character
is unread. -/
def scanWhitespaceLoop (buf : List Char) : List Char → List Char × List Char
  | [] => (buf, [])
  | c :: rest =>
    if c = eofCh then (buf, rest)
    else if ¬ isWhitespace c then (buf, c :: rest)
    else scanWhitespaceLoop (buf ++ [c]) rest

/-- scanner.go `scanWhitespace`: the first character is written to the
buffer unconditionally, then the loop runs. -/
def scanWhitespace : List Char → (Token × String) × List Char
  | [] => ((.WHITESPACE, String.mk [eofCh]), [])
  | c :: rest =>
    let (buf, rest2) := scanWhitespaceLoop [c] rest
    ((.WHITESPACE, String.mk buf), rest2)

/-- The loop of scanner.go `scanIdentifier`. -/
def scanIdentifierLoop (buf : List Char) : List Char → List Char × List Char
  | [] => (buf, [])
  | c :: rest =>
    if c = eofCh then (buf, rest)
    else if ¬ isLetter c && ¬ isDigit c && c ≠ '_' then (buf, c :: rest)
    else scanIdentifierLoop (buf ++ [c]) rest

/-- scanner.go `scanIdentifier`. -/
def scanIdentifier : List Char → (Token × String) × List Char
  | [] => ((.SYMBOL, String.mk [eofCh]), [])
  | c :: rest =>
    let (buf, rest2) := scanIdentifierLoop [c] rest
    ((.SYMBOL, String.mk buf), rest2)

/-- Digit alphabet for decimal numbers in scanner.go `scanNumber`. -/
def decDigits : List Char := "0123456789.".toList

/-- Digit alphabet after a `0x` prefix. -/
def hexDigits : List Char := "0123456789abcdefABCDEF.".toList

/-- Digit alphabet after a `0b` prefix. -/
def binDigits : List Char := "01.".toList

/-- The digit-collecting loop of scanner.go `scanNumber`: keep characters
belonging to `digits`, unread the first character outside the set, consume
a read `eof` rune. -/
def numLoop (digits : List Char) (buf : List Char) :
    List Char → List Char × List Char
  | [] => (buf, [])
  | c :: rest =>
    if c = eofCh then (buf, rest)
    else if c ∈ digits then numLoop digits (buf ++ [c]) rest
    else (buf, c :: rest)

/-- scanner.go `scanNumber`: `first` is the already-read leading digit.  A
second read that hits `eof` ends the token at once; a leading `0` followed
by `x` or `b` switches the digit alphabet. -/
def scanNumber (first : Char) (l : List Char) : (Token × String) × List Char :=
  match l with
  | [] => ((.NUMBER, String.mk [first]), [])
  | c :: rest =>
    if c = eofCh then ((.NUMBER, String.mk [first]), rest)
    else
      let (digits, buf, l2) :=
        if first = '0' then
          if c = 'x' then (hexDigits, [first, c], rest)
          else if c = 'b' then (binDigits, [first, c], rest)
          else (decDigits, [first], c :: rest)
        else (decDigits, [first], c :: rest)
      let (buf2, rest2) := numLoop digits buf l2
      ((.NUMBER, String.mk buf2), rest2)

/-- The whitespace-discarding inner loop of the `\newline` escape in
scanner.go `scanUntil`: whitespace after the escaped newline is consumed,
and the first non-whitespace character is unread. -/
def wsSkip : List Char → List Char
  | [] => []
  | c :: rest => if isWhitespace c then wsSkip rest else c :: rest

/-- The main loop of scanner.go `scanUntil`, with explicit fuel (every
iteration consumes at least one input character, so `l.length + 1` fuel is
always enough).  `esc` is the `escape` flag.  `.inl buf` means the loop
finished with buffer `buf`; `.inr c` means an unsupported escape character
`c` was met (the Go code returns an ILLEGAL token for it). -/
def scanUntilLoopF : Nat → Char → List Char → Bool →
    List Char → (List Char ⊕ Char) × List Char
  | 0, _, buf, _, l => (.inl buf, l)
  | _ + 1, _, buf, _, [] => (.inl buf, [])
  | f + 1, delim, buf, esc, c :: rest =>
    if c = eofCh then (.inl buf, rest)
    else if esc then
      if c = dquote then scanUntilLoopF f delim (buf ++ [dquote]) false rest
      else if c = 't' then scanUntilLoopF f delim (buf ++ [tabCh]) false rest
      else if c = 'n' then scanUntilLoopF f delim (buf ++ [nlCh]) false rest
      else if c = 'r' then scanUntilLoopF f delim (buf ++ [crCh]) false rest
      else if c = nlCh then scanUntilLoopF f delim buf false (wsSkip rest)
      else (.inr c, rest)
    else if c = delim then (.inl buf, rest)
    else if c = bslash then scanUntilLoopF f delim buf true rest
    else scanUntilLoopF f delim (buf ++ [c]) false rest

/-- scanner.go `scanUntil`: the first character after the delimiter is
written to the buffer unconditionally (even a backslash, the delimiter
itself, or the rune 0 produced by a read at end of input), then the loop
runs. -/
def scanUntil (tok : Token) (delim : Char) (l : List Char) :
    (Token × String) × List Char :=
  match l with
  | [] => ((tok, String.mk [eofCh]), [])
  | c :: rest =>
    match scanUntilLoopF (rest.length + 1) delim [c] false rest with
    | (.inl buf, rest2) => ((tok, String.mk buf), rest2)
    | (.inr bad, rest2) => ((.ILLEGAL, String.mk [bslash, bad]), rest2)

/-- scanner.go `Scan` (the fresh-scan part, without the pushback slot),
with explicit fuel for the recursion after a line comment.  Fuel is only
consumed by that comment recursion; `l.length + 1` is always enough. -/
def scanCoreF : Nat → List Char → (Token × String) × List Char
  | 0, l => ((.EOF, ""), l)
  | _ + 1, [] => ((.EOF, ""), [])
  | f + 1, c :: rest =>
    if isWhitespace c then scanWhitespace (c :: rest)
    else if isLetter c then scanIdentifier (c :: rest)
    else if c = eofCh then ((.EOF, ""), rest)
    else if c = '/' then
      match rest with
      | [] => ((.ILLEGAL, "/"), [])
      | c2 :: r2 =>
        if c2 = '/' then scanCoreF f (skipLine r2)
        else ((.ILLEGAL, "/"), c2 :: r2)
    else if c = ':' then
      match rest with
      | [] => ((.COLON, ":"), [])
      | c2 :: r2 => if c2 = ':' then ((.DOUBLE_COLON, "::"), r2)
                    else ((.COLON, ":"), c2 :: r2)
    else if c = squote then scanUntil .SYMBOL squote rest
    else if c = dquote then scanUntil .STRING dquote rest
    else if c = ',' then ((.COMMA, String.mk [c]), rest)
    else if c = obraceCh then ((.OPEN_BRACE, String.mk [c]), rest)
    else if c = cbraceCh then ((.CLOSE_BRACE, String.mk [c]), rest)
    else if c = '[' then ((.OPEN_BRACKET, String.mk [c]), rest)
    else if c = ']' then ((.CLOSE_BRACKET, String.mk [c]), rest)
    else if c = '(' then ((.OPEN_PAREN, String.mk [c]), rest)
    else if c = ')' then ((.CLOSE_PAREN, String.mk [c]), rest)
    else if isDigit c then scanNumber c rest
    else ((.ILLEGAL, String.mk [c]), rest)

/-- One fresh scan from a character list (sufficient fuel supplied). -/
def scanCore (l : List Char) : (Token × String) × List Char :=
  scanCoreF (l.length + 1) l

/-- The `Scanner` struct of scanner.go: the remaining input together with
the one-slot pushback buffer (`lastToken`/`lastLiteral`); the slot is
considered empty exactly when `lastToken` is `ILLEGAL`. -/
structure ScanState where
  lastToken : Token
  lastLiteral : String
  input : List Char
deriving Repr

/-- scanner.go `NewScanner` (a zero-valued `Scanner` over the input). -/
def newScanState (l : List Char) : ScanState := ⟨.ILLEGAL, "", l⟩

/-- scanner.go `Unscan`: store one token in the pushback slot. -/
def scanUnscan (tok : Token) (lit : String) (st : ScanState) : ScanState :=
  { st with lastToken := tok, lastLiteral := lit }

/-- scanner.go `Scan`: return the pushed-back token when the slot holds a
token other than `ILLEGAL`, otherwise scan fresh input. -/
def scanS (st : ScanState) : (Token × String) × ScanState :=
  if st.lastToken ≠ .ILLEGAL then
    ((st.lastToken, st.lastLiteral), { st with lastToken := .ILLEGAL, lastLiteral := "" })
  else
    let ((t, s), rest) := scanCore st.input
    ((t, s), { st with input := rest })

/-! ## The value model (value.go) -/

/-- value.go `Type`. -/
inductive IonType where
  | NullType
  | BoolType
  | IntType
  | FloatType
  | StringType
  | SymbolType
  | StructType
  | ListType
  | SexpType
deriving DecidableEq, Repr

/-- value.go `Value` (with `Field` inlined as a name/value pair).  The
`Float` payload of the Go struct is a `float64`; it is modelled as an exact
rational, because every float the parser can construct is the exact decimal
value of a scanned literal (IEEE-754 rounding is outside this model). -/
inductive Value where
  | mk (typ : IonType) (annotations : List String) (int : Int) (float : Rat)
      (text : String) (sequence : List Value)
      (struct : List (String × Value)) : Value
deriving Repr

/-- Projection: the `Type` field. -/
def Value.typ : Value → IonType
  | .mk t _ _ _ _ _ _ => t

/-- Projection: the `Annotations` field. -/
def Value.annotations : Value → List String
  | .mk _ a _ _ _ _ _ => a

/-- Projection: the `Int` field. -/
def Value.int : Value → Int
  | .mk _ _ i _ _ _ _ => i

/-- Projection: the `Float` field. -/
def Value.float : Value → Rat
  | .mk _ _ _ f _ _ _ => f

/-- Projection: the `Text` field. -/
def Value.text : Value → String
  | .mk _ _ _ _ tx _ _ => tx

/-- Projection: the `Sequence` field. -/
def Value.sequence : Value → List Value
  | .mk _ _ _ _ _ sq _ => sq

/-- Projection: the `Struct` field. -/
def Value.structF : Value → List (String × Value)
  | .mk _ _ _ _ _ _ st => st

/-- The Go literal `&Value{Type: NullType}`. -/
def nullV : Value := .mk .NullType [] 0 0 "" [] []

/-- The Go literal `&Value{Type: BoolType, Int: i}`. -/
def boolV (i : Int) : Value := .mk .BoolType [] i 0 "" [] []

/-- The Go literal `&Value{Type: IntType, Int: i}`. -/
def intV (i : Int) : Value := .mk .IntType [] i 0 "" [] []

/-- The Go literal `&Value{Type: FloatType, Float: q}`. -/
def floatV (q : Rat) : Value := .mk .FloatType [] 0 q "" [] []

/-- The Go literal `&Value{Type: StringType, Text: s}`. -/
def stringV (s : String) : Value := .mk .StringType [] 0 0 s [] []

/-- The Go literal `&Value{Type: SymbolType, Text: s}`. -/
def symbolV (s : String) : Value := .mk .SymbolType [] 0 0 s [] []

/-- The Go literal `&Value{Type: ListType, Sequence: seq}`. -/
def listV (seq : List Value) : Value := .mk .ListType [] 0 0 "" seq []

/-- The Go literal `&Value{Type: SexpType, Sequence: seq}`. -/
def sexpV (seq : List Value) : Value := .mk .SexpType [] 0 0 "" seq []

/-- The Go literal `&Value{Type: StructType, Struct: fields}`. -/
def structV (fs : List (String × Value)) : Value := .mk .StructType [] 0 0 "" [] fs

/-- The assignment `val.Annotations = []string{lit}` in parser.go. -/
def withAnns (v : Value) (a : List String) : Value :=
  match v with
  | .mk t _ i f tx sq st => .mk t a i f tx sq st

/-! ## Decimal rendering of integers (fmt `%d`) -/

/-- The decimal digit character for `d < 10`. -/
def digitChar (d : Nat) : Char := Char.ofNat (48 + d)

/-- Digits of `n`, most significant first, prepended to `acc`; structural
fuel (`n + 1` is always enough since `n / 10 < n` for `n > 0`). -/
def natDecCore : Nat → Nat → List Char → List Char
  | 0, _, acc => acc
  | fuel + 1, n, acc =>
    let acc2 := digitChar (n % 10) :: acc
    if n / 10 = 0 then acc2 else natDecCore fuel (n / 10) acc2

/-- Decimal rendering of a natural number. -/
def natDec (n : Nat) : String := String.mk (natDecCore (n + 1) n [])

/-- Model of the Go `fmt.Sprintf("%d", i)` for an `int64`. -/
def intDec (i : Int) : String :=
  if i < 0 then "-" ++ natDec i.natAbs else natDec i.toNat

/-! ## Numeric conversion (strconv, as used by parser.go) -/

/-- Value of a digit character under the given base, as accepted by Go's
`strconv.ParseInt` (0-9, a-z, A-Z, rejected when `≥ base`). -/
def charDigit (base : Nat) (c : Char) : Option Nat :=
  let v : Option Nat :=
    if '0' ≤ c ∧ c ≤ '9' then some (c.toNat - 48)
    else if 'a' ≤ c ∧ c ≤ 'z' then some (c.toNat - 97 + 10)
    else if 'A' ≤ c ∧ c ≤ 'Z' then some (c.toNat - 65 + 10)
    else none
  match v with
  | some d => if d < base then some d else none
  | none => none

/-- Accumulating digit loop of the unsigned part of `strconv.ParseInt`. -/
def parseUintLoop (base : Nat) (acc : Nat) : List Char → Option Nat
  | [] => some acc
  | c :: rest =>
    match charDigit base c with
    | some d => parseUintLoop base (base * acc + d) rest
    | none => none

/-- Model of Go `strconv.ParseInt(s, base, 64)`: optional sign, at least
one digit, every digit valid for `base`, result within the `int64` range
(otherwise Go reports `ErrRange` and parser.go treats it as failure). -/
def parseInt64 (s : String) (base : Nat) : Option Int :=
  match s.data with
  | [] => none
  | c :: rest =>
    let (neg, ds) :=
      if c = '-' then (true, rest)
      else if c = '+' then (false, rest)
      else (false, c :: rest)
    if ds.isEmpty then none
    else
      match parseUintLoop base 0 ds with
      | none => none
      | some n =>
        if neg then
          if n ≤ 9223372036854775808 then some (-(n : Int)) else none
        else
          if n < 9223372036854775808 then some (n : Int) else none

/-- Powers of ten (kernel-friendly form for the decimal scaling below). -/
def pow10 : Nat → Nat
  | 0 => 1
  | n + 1 => 10 * pow10 n

/-- Model of Go `strconv.ParseFloat(s, 64)` restricted to the literal
shapes scanner.go can produce for a decimal number containing a dot (a
leading digit, then characters from `0-9.`): exactly one dot, digits on
at least one side, value taken exactly (binary64 rounding and the huge-
literal `ErrRange` overflow are outside this model; no claim exercises
them). -/
def parseFloatGo (s : String) : Option Rat :=
  let parts := s.data.splitOn '.'
  match parts with
  | [ip, fp] =>
    if (ip ++ fp).isEmpty then none
    else if (ip ++ fp).all (fun c => isDigit c) then
      match parseUintLoop 10 0 ip, parseUintLoop 10 0 fp with
      | some i, some f =>
        some (mkRat (i * pow10 fp.length + f) (pow10 fp.length))
      | _, _ => none
    else none
  | _ => none

/-! ## Rendering (value.go `Value.String` and helpers) -/

/-- value.go `annotate`: each annotation name followed by `::`. -/
def annotate (v : Value) : String :=
  if v.annotations.length > 0 then
    String.join (v.annotations.map (fun a => a ++ "::"))
  else ""

/-- value.go `symbolToString`: always single-quoted (embedded quotes are
not escaped; the source marks that as a to-do). -/
def symbolToString (val : String) : String :=
  String.mk [squote] ++ val ++ String.mk [squote]

/-- Escape of one character under Go's `%q` (strconv.Quote), faithful for
ASCII: quote and backslash get a backslash, the named control escapes are
used where Go uses them, other control characters use `\x` with two lower
hex digits.  Runes ≥ 0x80 are kept verbatim (Go consults unicode.IsPrint
there; only printable ones appear in this development). -/
def quoteChar (c : Char) : List Char :=
  if c = dquote then [bslash, dquote]
  else if c = bslash then [bslash, bslash]
  else if c.toNat = 7 then [bslash, 'a']
  else if c.toNat = 8 then [bslash, 'b']
  else if c.toNat = 12 then [bslash, 'f']
  else if c = nlCh then [bslash, 'n']
  else if c = crCh then [bslash, 'r']
  else if c = tabCh then [bslash, 't']
  else if c.toNat = 11 then [bslash, 'v']
  else if c.toNat < 0x20 || c.toNat = 0x7f then
    [bslash, 'x', digitChar (c.toNat / 16),
      if c.toNat % 16 < 10 then digitChar (c.toNat % 16)
      else Char.ofNat (97 + (c.toNat % 16 - 10))]
  else [c]

/-- Model of Go `fmt.Sprintf("%q", s)` (strconv.Quote), see `quoteChar`. -/
def quoteGo (s : String) : String :=
  String.mk ([dquote] ++ (s.data.map quoteChar).flatten ++ [dquote])

/-- Fractional-digit expansion used by `floatG` (fuel-bounded long
division; every float reachable by parsing is a finite decimal, so the
expansion terminates by reaching remainder 0). -/
def fracDigitsF : Nat → Nat → Nat → List Char
  | 0, _, _ => []
  | fuel + 1, r, den =>
    if r = 0 then []
    else digitChar (r * 10 / den) :: fracDigitsF fuel (r * 10 % den) den

/-- Model of Go `fmt.Sprintf("%g", f)` on the exact rationals of this
model: integral values print without a decimal point (as `%g` does), other
values print sign, integer part, dot and the finite fraction digits.  The
exponent forms `%g` uses for very large or very small magnitudes are not
modelled; no claim exercises them. -/
def floatG (q : Rat) : String :=
  if q.den = 1 then intDec q.num
  else
    (if q.num < 0 then "-" else "") ++ natDec (q.num.natAbs / q.den) ++ "." ++
      String.mk (fracDigitsF 99 (q.num.natAbs % q.den) q.den)

mutual

/-- value.go `Value.String`. -/
def render : Value → String
  | .mk t anns i f tx sq st =>
    match t with
    | .NullType => "null"
    | .BoolType => if i = 0 then "false" else "true"
    | .IntType => intDec i
    | .FloatType => floatG f
    | .StringType => quoteGo tx
    | .SymbolType => symbolToString tx
    | .StructType => annotate (.mk t anns i f tx sq st) ++ structToString st
    | .ListType => sequenceToString '[' ',' ']' sq
    | .SexpType => sequenceToString '(' eofCh ')' sq

/-- value.go `structToString` (zero/one/many cases as in the source). -/
def structToString : List (String × Value) → String
  | [] => String.mk [obraceCh, cbraceCh]
  | [(n, v)] =>
    String.mk [obraceCh] ++ n ++ ": " ++ render v ++ String.mk [cbraceCh]
  | (n, v) :: f2 :: fs =>
    String.mk [obraceCh] ++ n ++ ": " ++ render v ++
      structBody (f2 :: fs) ++ String.mk [cbraceCh]

/-- The tail of the `default` loop of value.go `structToString` (the
fields after the first, each preceded by a comma and space). -/
def structBody : List (String × Value) → String
  | [] => ""
  | (n, v) :: fs => ", " ++ n ++ ": " ++ render v ++ structBody fs

/-- value.go `sequenceToString` (zero/one/many cases as in the source;
`delimC` is the Go `delimChar` and rune 0 means no delimiter). -/
def sequenceToString (openC delimC closeC : Char) : List Value → String
  | [] => String.mk [openC, closeC]
  | [v] => String.mk [openC] ++ render v ++ String.mk [closeC]
  | v :: v2 :: vs =>
    String.mk [openC] ++ render v ++ seqBody delimC (v2 :: vs) ++
      String.mk [closeC]

/-- The tail of the `default` loop of value.go `sequenceToString` (the
values after the first, each preceded by the delimiter, when nonzero, and
a space). -/
def seqBody (delimC : Char) : List Value → String
  | [] => ""
  | v :: vs =>
    (if delimC ≠ eofCh then String.mk [delimC] else "") ++ " " ++
      render v ++ seqBody delimC vs

end

/-! ## The parser (parser.go)

The `Parser` struct holds the scanner and its own one-token pushback
buffer (`buf.tok`, `buf.lit`, `buf.n`).  The parser never calls the
scanner's `Unscan`, so the scanner component reduces to the remaining
input list.  The four mutually recursive parsing functions (`parse`,
`parseToken`, `parseSequence`, `parseStruct`) are embedded as one
fuel-indexed function over a call tag, one tag per Go function, so that
closed parses reduce inside the kernel. -/

/-- Parser state: remaining input plus the parser-level pushback buffer.
The zero value of the Go struct has token `ILLEGAL` (0), empty literal and
`n = 0`. -/
structure PState where
  input : List Char
  bufTok : Token
  bufLit : String
  bufN : Bool
deriving Repr

/-- The parser built by parser.go `parseFrom` over an input. -/
def initPState (l : List Char) : PState := ⟨l, .ILLEGAL, "", false⟩

/-- parser.go `Parser.scan`: return the buffered token when `buf.n` is
set (leaving `buf.tok`/`buf.lit` in place), otherwise scan fresh input and
record the token in the buffer. -/
def pscan (st : PState) : (Token × String) × PState :=
  if st.bufN then ((st.bufTok, st.bufLit), { st with bufN := false })
  else
    let ((t, s), rest) := scanCore st.input
    ((t, s), ⟨rest, t, s, false⟩)

/-- parser.go `Parser.unscan`: set `buf.n = 1`. -/
def punscan (st : PState) : PState := { st with bufN := true }

/-- parser.go `Parser.scanIgnoreWhitespace`: scan once, and scan once more
if the first token was WHITESPACE (only one whitespace token is ever
skipped). -/
def pscanIW (st : PState) : (Token × String) × PState :=
  let ((t, s), st2) := pscan st
  if t = .WHITESPACE then pscan st2 else ((t, s), st2)

/-- One error per `fmt.Errorf` site of parser.go, carrying that site's
arguments. -/
inductive PErr where
  | tokenNotHandled (tok : Token) (lit : String)
  | unexpectedTok (tok : Token)
  | cannotParseReal (lit : String)
  | cannotParseInt (base : Nat) (lit : String)
  | badSequence (expected : Token) (got : Token)
  | unexpectedEOF
  | invalidFieldName (v : Value)
  | badStructSyntax (tok : Token)
deriving Repr

/-- Outcome of a parsing function: the Go `(*Value, error)` pair, where
`ok none` is `(nil, nil)`, plus `crash` for a nil-pointer dereference and
`fuelOut` as the artifact of the fuel embedding (never reached when enough
fuel is supplied). -/
inductive PRes where
  | ok (v : Option Value)
  | err (e : PErr)
  | crash
  | fuelOut
deriving Repr

/-- Call tags for the four mutually recursive functions of parser.go:
`parse`, `parseToken tok lit`, `parseSequence end` (with the elements
accumulated so far), `parseStruct` (with the fields accumulated so
far). -/
inductive PCall where
  | top
  | tok (t : Token) (lit : String)
  | seq (endTok : Token) (acc : List Value)
  | strct (acc : List (String × Value))

/-- Go `strings.HasPrefix`, at the character-list level. -/
def hasPfx (pre : List Char) (l : List Char) : Bool := pre.isPrefixOf l

/-- The NUMBER case of parser.go `parseToken` (pure in the literal). -/
def numberResult (lit : String) : PRes :=
  if lit.data.contains '.' then
    if ¬ hasPfx ['0', 'x'] lit.data && ¬ hasPfx ['0', 'b'] lit.data then
      match parseFloatGo lit with
      | some n => .ok (some (floatV n))
      | none => .err (.cannotParseReal lit)
    else .err (.cannotParseReal lit)
  else
    let (base, lit2) :=
      if hasPfx ['0', 'x'] lit.data then (16, String.mk (lit.data.drop 2))
      else if hasPfx ['0', 'b'] lit.data then (2, String.mk (lit.data.drop 2))
      else (10, lit)
    match parseInt64 lit2 base with
    | some i => .ok (some (intV i))
    | none => .err (.cannotParseInt base lit2)

/-- The four parsing functions of parser.go as one fuel-indexed function.
`.top` is `parse`; `.tok` is `parseToken`; `.seq` is `parseSequence`;
`.strct` is `parseStruct`.  The two `.crash` sites are the nil-pointer
dereferences of `parseStruct` (`elem.Type` on a nil field-name result and
`*elem` on a nil field-value result). -/
def parseRun : Nat → PCall → PState → PRes × PState
  | 0, _, st => (.fuelOut, st)
  | fuel + 1, .top, st =>
    let ((t, l), st2) := pscanIW st
    parseRun fuel (.tok t l) st2
  | fuel + 1, .tok tok lit, st =>
    match tok with
    | .EOF => (.ok none, st)
    | .ILLEGAL => (.err (.tokenNotHandled tok lit), st)
    | .SYMBOL =>
      let ((nextTok, _), st2) := pscanIW st
      if nextTok = .DOUBLE_COLON then
        match parseRun fuel .top st2 with
        | (.ok (some v), st3) => (.ok (some (withAnns v [lit])), st3)
        | r => r
      else
        let st3 := punscan st2
        if lit = "true" then (.ok (some (boolV 1)), st3)
        else if lit = "false" then (.ok (some (boolV 0)), st3)
        else if lit = "null" then (.ok (some nullV), st3)
        else (.ok (some (symbolV lit)), st3)
    | .OPEN_PAREN => parseRun fuel (.seq .CLOSE_PAREN []) st
    | .OPEN_BRACKET => parseRun fuel (.seq .CLOSE_BRACKET []) st
    | .OPEN_BRACE => parseRun fuel (.strct []) st
    | .CLOSE_BRACE => (.err (.unexpectedTok tok), st)
    | .CLOSE_BRACKET => (.err (.unexpectedTok tok), st)
    | .CLOSE_PAREN => (.err (.unexpectedTok tok), st)
    | .DOUBLE_COLON => (.err (.unexpectedTok tok), st)
    | .COMMA => (.ok none, st)
    | .COLON => (.ok none, st)
    | .NUMBER => (numberResult lit, st)
    | .STRING => (.ok (some (stringV lit)), st)
    | .WHITESPACE => (.err (.tokenNotHandled tok lit), st)
  | fuel + 1, .seq endTok acc, st =>
    let ((t, l), st2) := pscanIW st
    if t = .EOF then (.err .unexpectedEOF, st2)
    else if t = .CLOSE_BRACKET ∨ t = .CLOSE_PAREN then
      if endTok ≠ t then (.err (.badSequence endTok t), st2)
      else if endTok = .CLOSE_PAREN then (.ok (some (sexpV acc)), st2)
      else (.ok (some (listV acc)), st2)
    else
      match parseRun fuel (.tok t l) st2 with
      | (.ok (some v), st3) => parseRun fuel (.seq endTok (acc ++ [v])) st3
      | (.ok none, st3) => parseRun fuel (.seq endTok acc) st3
      | r => r
  | fuel + 1, .strct acc, st =>
    let ((t, l), st2) := pscanIW st
    if t = .EOF then (.err .unexpectedEOF, st2)
    else if t = .CLOSE_BRACE then (.ok (some (structV acc)), st2)
    else if t = .COMMA then parseRun fuel (.strct acc) st2
    else
      match parseRun fuel (.tok t l) st2 with
      | (.ok none, st3) => (.crash, st3)
      | (.ok (some elem), st3) =>
        if elem.typ ≠ .SymbolType ∧ elem.typ ≠ .StringType then
          (.err (.invalidFieldName elem), st3)
        else
          let ((t2, _), st4) := pscanIW st3
          if t2 ≠ .COLON then (.err (.badStructSyntax t2), st4)
          else
            match parseRun fuel .top st4 with
            | (.ok none, st5) => (.crash, st5)
            | (.ok (some velem), st5) =>
              parseRun fuel (.strct (acc ++ [(elem.text, velem)])) st5
            | r => r
      | r => r

/-- parser.go `Parser.parse`. -/
def parseP (fuel : Nat) (st : PState) : PRes × PState := parseRun fuel .top st

/-- Fuel that is always sufficient for an input of this length (the parser
consumes at least one character per two fuel steps). -/
def fuelFor (l : List Char) : Nat := 2 * l.length + 16

/-- parser.go `Parse` over a character list. -/
def parseStringL (l : List Char) : PRes × PState := parseP (fuelFor l) (initPState l)

/-- parser.go `Parse` over a Lean string: the result component of the
`(*Value, error)` pair. -/
def parseString0 (s : String) : PRes := (parseStringL s.data).1

/-! ## Auxiliary predicates used by the theorems -/

/-- The keyword literals that parser.go gives special meaning to. -/
def keywords : List String := ["true", "false", "null"]

mutual

/-- No Symbol node anywhere in the value tree carries one of the keyword
texts `true` / `false` / `null`. -/
def symClean : Value → Bool
  | .mk t _ _ _ tx sq st =>
    (if t = .SymbolType then decide (tx ∉ keywords) else true) &&
      symCleanList sq && symCleanFields st

/-- `symClean` over a sequence of child values. -/
def symCleanList : List Value → Bool
  | [] => true
  | v :: vs => symClean v && symCleanList vs

/-- `symClean` over struct fields. -/
def symCleanFields : List (String × Value) → Bool
  | [] => true
  | (_, v) :: fs => symClean v && symCleanFields fs

end

/-- The invariant carried by a parser call tag: the accumulated elements
or fields are already clean. -/
def callClean : PCall → Bool
  | .top => true
  | .tok _ _ => true
  | .seq _ acc => symCleanList acc
  | .strct acc => symCleanFields acc

/-! ## The renderable class (for the round-trip theorem)

Round-trip (parse of render) fails in the code for several value shapes:
annotations on non-struct values are dropped by the renderer, floats can
render to integer literals (`%g` of 1.0 is `1`), strings containing
backslashes or starting with an escaped character re-scan incorrectly
(the first character after the quote is buffered verbatim), struct field
names are rendered bare, and keyword-texted symbols re-parse as keywords.
The predicates below carve out the class on which round-trip does hold:
every parsed value whose strings, symbols and field names use ordinary
characters and whose annotations sit on structs (at most one, as the
parser produces) is in the class. -/

/-- Identifier character, as consumed by scanner.go `scanIdentifier`. -/
def identChar (c : Char) : Bool := isLetter c || isDigit c || c = '_'

/-- A bare identifier: scanned back as one SYMBOL token. -/
def identOk (s : String) : Bool :=
  match s.data with
  | [] => false
  | c :: rest => isLetter c && rest.all (fun ch => identChar ch)

/-- A struct field name that renders bare and re-parses as a field name. -/
def fieldNameOk (s : String) : Bool := identOk s && decide (s ∉ keywords)

/-- A printable ASCII character that `%q` leaves unescaped. -/
def plainChar (c : Char) : Bool :=
  decide (0x20 ≤ c.toNat) && decide (c.toNat ≤ 0x7e) && c ≠ dquote && c ≠ bslash

/-- Characters allowed after the first position of a renderable string:
plain characters plus the four whose `%q` escapes the scanner can undo. -/
def strTailChar (c : Char) : Bool :=
  plainChar c || c = dquote || c = tabCh || c = nlCh || c = crCh

/-- A renderable string payload (nonempty; the first character must be
plain because `scanUntil` buffers it without escape processing). -/
def strOk (s : String) : Bool :=
  match s.data with
  | [] => false
  | c :: rest => plainChar c && rest.all (fun ch => strTailChar ch)

/-- A character a renderable symbol may contain: anything except the
single quote (never escaped by the renderer), the backslash (would be
taken as an escape when re-scanned) and the rune 0 (ends the scan). -/
def symChar (c : Char) : Bool := c ≠ squote && c ≠ bslash && c ≠ eofCh

/-- A renderable symbol payload. -/
def symOk (s : String) : Bool :=
  ¬ s.data.isEmpty && s.data.all (fun ch => symChar ch) && decide (s ∉ keywords)

/-- Struct annotations as the parser can produce them: at most one, and
identifier-shaped so the rendered `name::` re-scans as SYMBOL + `::`. -/
def annsOk (anns : List String) : Bool :=
  match anns with
  | [] => true
  | [a] => identOk a
  | _ => false

mutual

/-- The renderable class: `render` of such a value re-parses to exactly
the same value (the round-trip theorem below). -/
def RTok : Value → Bool
  | .mk t anns i f tx sq st =>
    match t with
    | .NullType =>
      anns.isEmpty && i == 0 && f == 0 && tx == "" && sq.isEmpty && st.isEmpty
    | .BoolType =>
      anns.isEmpty && (i == 0 || i == 1) && f == 0 && tx == "" &&
        sq.isEmpty && st.isEmpty
    | .IntType =>
      anns.isEmpty && decide (0 ≤ i) && decide (i < 9223372036854775808) &&
        f == 0 && tx == "" && sq.isEmpty && st.isEmpty
    | .FloatType => false
    | .StringType =>
      anns.isEmpty && strOk tx && i == 0 && f == 0 && sq.isEmpty && st.isEmpty
    | .SymbolType =>
      anns.isEmpty && symOk tx && i == 0 && f == 0 && sq.isEmpty && st.isEmpty
    | .ListType =>
      anns.isEmpty && i == 0 && f == 0 && tx == "" && st.isEmpty && RTlist sq
    | .SexpType =>
      anns.isEmpty && i == 0 && f == 0 && tx == "" && st.isEmpty && RTlist sq
    | .StructType =>
      annsOk anns && i == 0 && f == 0 && tx == "" && sq.isEmpty && RTfields st

/-- `RTok` over sequence elements. -/
def RTlist : List Value → Bool
  | [] => true
  | v :: vs => RTok v && RTlist vs

/-- `RTok` over struct fields (names must be bare identifiers that are
not keywords). -/
def RTfields : List (String × Value) → Bool
  | [] => true
  | (n, v) :: fs => fieldNameOk n && RTok v && RTfields fs

end

/-- The body of `quoteGo` without the enclosing quotes. -/
def qbody (cs : List Char) : List Char := (cs.map quoteChar).flatten

/-- The token kinds a rendered value can start with: every one of them
makes the sequence/struct loops dispatch to `parseToken` (none is
WHITESPACE, DOUBLE_COLON, EOF, a closer, COMMA or COLON). -/
def goodTok : Token → Bool
  | .SYMBOL => true
  | .NUMBER => true
  | .STRING => true
  | .OPEN_BRACE => true
  | .OPEN_BRACKET => true
  | .OPEN_PAREN => true
  | _ => false

/-- A continuation whose head cannot extend a preceding token: the
separators and closers the renderer emits after a value, or nothing. -/
def SepHead (l : List Char) : Prop :=
  ∀ ch, l.head? = some ch →
    ch = ',' ∨ ch = ' ' ∨ ch = ']' ∨ ch = ')' ∨ ch = cbraceCh

/-- A continuation whose first token (as the parser's one-whitespace-skip
scan sees it) is neither WHITESPACE nor DOUBLE_COLON, so a trailing
symbol lookahead buffers it harmlessly. -/
def StreamOK (l : List Char) : Prop :=
  (pscanIW (initPState l)).1.1 ≠ .WHITESPACE ∧
    (pscanIW (initPState l)).1.1 ≠ .DOUBLE_COLON

/-- Parser states that behave identically under the parser's only state
observation, `scanIgnoreWhitespace`: used to carry "the remaining stream
is `l`" across the one-token pushback buffer. -/
def Repr (st : PState) (l : List Char) : Prop :=
  pscanIW st = pscanIW (initPState l)

/-- The parsing half of the round-trip statement for one value: from any
state whose stream is `render v` followed by a separator-headed
continuation, `parse` (with enough fuel) returns exactly `v` and leaves
the continuation. -/
def ParsesTop (v : Value) : Prop :=
  ∀ (st : PState) (l : List Char), Repr st ((render v).data ++ l) →
    SepHead l → StreamOK l →
    ∃ f stF, parseRun (f + 1) .top st = (.ok (some v), stF) ∧ Repr stF l

/-! ## Helper lemmas -/

theorem wsSkip_eq_dropWhile (l : List Char) :
    wsSkip l = l.dropWhile (fun c => isWhitespace c) := by
  induction l with
  | nil => rfl
  | cons c rest ih =>
    by_cases h : isWhitespace c
    · simp [wsSkip, List.dropWhile, h, ih]
    · simp [wsSkip, List.dropWhile, h]

theorem skipLine_length_le (l : List Char) : (skipLine l).length ≤ l.length := by
  induction l with
  | nil => simp [skipLine]
  | cons c rest ih =>
    by_cases h : c = eofCh || c = nlCh
    · simp [skipLine, h]
    · simp only [skipLine, h, if_false]
      exact Nat.le_succ_of_le ih

theorem skipLine_append (c l : List Char) (hnl : nlCh ∉ c) (hz : eofCh ∉ c) :
    skipLine (c ++ nlCh :: l) = l := by
  induction c with
  | nil => simp [skipLine]
  | cons c0 c' ih =>
    have h0 : c0 ≠ eofCh := fun h => hz (h ▸ List.mem_cons_self c0 c')
    have h1 : c0 ≠ nlCh := fun h => hnl (h ▸ List.mem_cons_self c0 c')
    simp only [List.cons_append, skipLine, h0, h1, Bool.or_self, if_false]
    exact ih (fun h => hnl (List.mem_cons_of_mem _ h))
      (fun h => hz (List.mem_cons_of_mem _ h))

theorem scanCoreF_irrel (f : Nat) :
    ∀ (g : Nat) (l : List Char), l.length < f → l.length < g →
      scanCoreF f l = scanCoreF g l := by
  induction f with
  | zero => intro g l hf hg; omega
  | succ f ih =>
    intro g l hf hg
    cases g with
    | zero => omega
    | succ g =>
      cases l with
      | nil => rfl
      | cons c rest =>
        cases rest with
        | nil => rfl
        | cons c2 r2 =>
          simp only [scanCoreF]
          by_cases h1 : isWhitespace c = true
          · rw [if_pos h1, if_pos h1]
          · rw [if_neg h1, if_neg h1]
            by_cases h2 : isLetter c = true
            · rw [if_pos h2, if_pos h2]
            · rw [if_neg h2, if_neg h2]
              by_cases h3 : c = eofCh
              · rw [if_pos h3, if_pos h3]
              · rw [if_neg h3, if_neg h3]
                by_cases h4 : c = '/'
                · rw [if_pos h4, if_pos h4]
                  by_cases h5 : c2 = '/'
                  · rw [if_pos h5, if_pos h5]
                    have hr := skipLine_length_le r2
                    simp only [List.length_cons] at hf hg
                    exact ih g (skipLine r2) (by omega) (by omega)
                  · rw [if_neg h5, if_neg h5]
                · rw [if_neg h4, if_neg h4]


theorem symClean_withAnns (v : Value) (a : List String) :
    symClean (withAnns v a) = symClean v := by
  cases v with
  | mk t anns i f tx sq st => simp [withAnns, symClean]

theorem symCleanList_append (xs : List Value) (v : Value) :
    symCleanList (xs ++ [v]) = (symCleanList xs && symClean v) := by
  induction xs with
  | nil => simp [symCleanList]
  | cons x xs ih => simp [symCleanList, ih, Bool.and_assoc]

theorem symCleanFields_append (xs : List (String × Value)) (n : String) (v : Value) :
    symCleanFields (xs ++ [(n, v)]) = (symCleanFields xs && symClean v) := by
  induction xs with
  | nil => simp [symCleanFields]
  | cons x xs ih =>
    cases x with
    | mk nm vl => simp [symCleanFields, ih, Bool.and_assoc]

theorem symClean_boolV (i : Int) : symClean (boolV i) = true := by
  simp [boolV, symClean, symCleanList, symCleanFields]

theorem symClean_nullV : symClean nullV = true := by
  simp [nullV, symClean, symCleanList, symCleanFields]

theorem symClean_intV (i : Int) : symClean (intV i) = true := by
  simp [intV, symClean, symCleanList, symCleanFields]

theorem symClean_floatV (q : Rat) : symClean (floatV q) = true := by
  simp [floatV, symClean, symCleanList, symCleanFields]

theorem symClean_stringV (s : String) : symClean (stringV s) = true := by
  simp [stringV, symClean, symCleanList, symCleanFields]

theorem symClean_symbolV (s : String) (h : s ∉ keywords) :
    symClean (symbolV s) = true := by
  simp [symbolV, symClean, symCleanList, symCleanFields, h]

theorem symClean_listV (sq : List Value) :
    symClean (listV sq) = symCleanList sq := by
  simp [listV, symClean, symCleanFields]

theorem symClean_sexpV (sq : List Value) :
    symClean (sexpV sq) = symCleanList sq := by
  simp [sexpV, symClean, symCleanFields]

theorem symClean_structV (fs : List (String × Value)) :
    symClean (structV fs) = symCleanFields fs := by
  simp [structV, symClean, symCleanList]

theorem numberResult_clean (lit : String) (v : Value)
    (h : numberResult lit = .ok (some v)) : symClean v = true := by
  unfold numberResult at h
  split at h
  · split at h
    · split at h
      · injection h with h1
        injection h1 with h2
        rw [← h2]
        exact symClean_floatV _
      · exact PRes.noConfusion h
    · exact PRes.noConfusion h
  · split at h
    split at h
    · injection h with h1
      injection h1 with h2
      rw [← h2]
      exact symClean_intV _
    · exact PRes.noConfusion h

/-- Every value produced by any of the four parsing functions has no
Symbol node carrying a keyword text, provided the accumulated elements in
the call tag are already clean. -/
theorem parseRun_symClean :
    ∀ (fuel : Nat) (call : PCall) (st : PState) (v : Value) (st2 : PState),
      callClean call = true →
      parseRun fuel call st = (.ok (some v), st2) → symClean v = true := by
  intro fuel
  induction fuel with
  | zero =>
    intro call st v st2 hc h
    simp only [parseRun] at h
    simp at h
  | succ f ih =>
    intro call st v st2 hc h
    cases call with
    | top =>
      simp only [parseRun] at h
      rcases he : pscanIW st with ⟨⟨t, l⟩, stA⟩
      rw [he] at h
      exact ih (.tok t l) stA v st2 rfl h
    | tok tok lit =>
      cases tok with
      | EOF => simp only [parseRun] at h; simp at h
      | ILLEGAL => simp only [parseRun] at h; simp at h
      | WHITESPACE => simp only [parseRun] at h; simp at h
      | COMMA => simp only [parseRun] at h; simp at h
      | COLON => simp only [parseRun] at h; simp at h
      | CLOSE_BRACE => simp only [parseRun] at h; simp at h
      | CLOSE_BRACKET => simp only [parseRun] at h; simp at h
      | CLOSE_PAREN => simp only [parseRun] at h; simp at h
      | DOUBLE_COLON => simp only [parseRun] at h; simp at h
      | NUMBER =>
        simp only [parseRun] at h
        have h1 : numberResult lit = .ok (some v) := congrArg Prod.fst h
        exact numberResult_clean lit v h1
      | STRING =>
        simp only [parseRun] at h
        injection h with h1 h2
        injection h1 with h3
        injection h3 with h4
        rw [← h4]
        exact symClean_stringV lit
      | OPEN_PAREN =>
        simp only [parseRun] at h
        exact ih _ _ _ _ (by simp [callClean, symCleanList]) h
      | OPEN_BRACKET =>
        simp only [parseRun] at h
        exact ih _ _ _ _ (by simp [callClean, symCleanList]) h
      | OPEN_BRACE =>
        simp only [parseRun] at h
        exact ih _ _ _ _ (by simp [callClean, symCleanFields]) h
      | SYMBOL =>
        simp only [parseRun] at h
        rcases he : pscanIW st with ⟨⟨nt, nl⟩, stA⟩
        rw [he] at h
        by_cases hd : nt = .DOUBLE_COLON
        · rw [if_pos hd] at h
          rcases hr : parseRun f .top stA with ⟨r, stB⟩
          rw [hr] at h
          cases r with
          | ok ov =>
            cases ov with
            | some w =>
              dsimp only at h
              injection h with h1 h2
              injection h1 with h3
              injection h3 with h4
              rw [← h4, symClean_withAnns]
              exact ih .top stA w stB rfl hr
            | none => dsimp only at h; simp at h
          | err e => dsimp only at h; simp at h
          | crash => dsimp only at h; simp at h
          | fuelOut => dsimp only at h; simp at h
        · rw [if_neg hd] at h
          by_cases ht : lit = "true"
          · rw [if_pos ht] at h
            injection h with h1 h2
            injection h1 with h3
            injection h3 with h4
            rw [← h4]
            exact symClean_boolV 1
          · rw [if_neg ht] at h
            by_cases hf2 : lit = "false"
            · rw [if_pos hf2] at h
              injection h with h1 h2
              injection h1 with h3
              injection h3 with h4
              rw [← h4]
              exact symClean_boolV 0
            · rw [if_neg hf2] at h
              by_cases hn : lit = "null"
              · rw [if_pos hn] at h
                injection h with h1 h2
                injection h1 with h3
                injection h3 with h4
                rw [← h4]
                exact symClean_nullV
              · rw [if_neg hn] at h
                injection h with h1 h2
                injection h1 with h3
                injection h3 with h4
                rw [← h4]
                exact symClean_symbolV lit (by simp [keywords, ht, hf2, hn])
    | seq endTok acc =>
      simp only [callClean] at hc
      simp only [parseRun] at h
      rcases he : pscanIW st with ⟨⟨t, l⟩, stA⟩
      rw [he] at h
      by_cases h1 : t = .EOF
      · rw [if_pos h1] at h; simp at h
      · rw [if_neg h1] at h
        by_cases h2 : t = .CLOSE_BRACKET ∨ t = .CLOSE_PAREN
        · rw [if_pos h2] at h
          by_cases h3 : endTok ≠ t
          · rw [if_pos h3] at h; simp at h
          · rw [if_neg h3] at h
            by_cases h4 : endTok = .CLOSE_PAREN
            · rw [if_pos h4] at h
              injection h with ha hb
              injection ha with hcc
              injection hcc with hdd
              rw [← hdd, symClean_sexpV]
              exact hc
            · rw [if_neg h4] at h
              injection h with ha hb
              injection ha with hcc
              injection hcc with hdd
              rw [← hdd, symClean_listV]
              exact hc
        · rw [if_neg h2] at h
          rcases hr : parseRun f (.tok t l) stA with ⟨r, stB⟩
          rw [hr] at h
          cases r with
          | ok ov =>
            cases ov with
            | some w =>
              dsimp only at h
              have hw := ih (.tok t l) stA w stB rfl hr
              exact ih (.seq endTok (acc ++ [w])) stB v st2
                (by simp [callClean, symCleanList_append, hc, hw]) h
            | none =>
              dsimp only at h
              exact ih _ _ _ _ (by simp [callClean, hc]) h
          | err e => dsimp only at h; simp at h
          | crash => dsimp only at h; simp at h
          | fuelOut => dsimp only at h; simp at h
    | strct acc =>
      simp only [callClean] at hc
      simp only [parseRun] at h
      rcases he : pscanIW st with ⟨⟨t, l⟩, stA⟩
      rw [he] at h
      by_cases h1 : t = .EOF
      · rw [if_pos h1] at h; simp at h
      · rw [if_neg h1] at h
        by_cases h2 : t = .CLOSE_BRACE
        · rw [if_pos h2] at h
          injection h with ha hb
          injection ha with hcc
          injection hcc with hdd
          rw [← hdd, symClean_structV]
          exact hc
        · rw [if_neg h2] at h
          by_cases h3 : t = .COMMA
          · rw [if_pos h3] at h
            exact ih _ _ _ _ (by simp [callClean, hc]) h
          · rw [if_neg h3] at h
            rcases hr : parseRun f (.tok t l) stA with ⟨r, stB⟩
            rw [hr] at h
            cases r with
            | ok ov =>
              cases ov with
              | none => dsimp only at h; simp at h
              | some elem =>
                dsimp only at h
                by_cases h5 : elem.typ ≠ .SymbolType ∧ elem.typ ≠ .StringType
                · rw [if_pos h5] at h; simp at h
                · rw [if_neg h5] at h
                  rcases hc2 : pscanIW stB with ⟨⟨t2, l2⟩, stC⟩
                  rw [hc2] at h
                  by_cases h6 : t2 ≠ .COLON
                  · rw [if_pos h6] at h; simp at h
                  · rw [if_neg h6] at h
                    rcases hr2 : parseRun f .top stC with ⟨r2, stD⟩
                    rw [hr2] at h
                    cases r2 with
                    | ok ov2 =>
                      cases ov2 with
                      | none => dsimp only at h; simp at h
                      | some velem =>
                        dsimp only at h
                        have hv := ih .top stC velem stD rfl hr2
                        exact ih (.strct (acc ++ [(elem.text, velem)])) stD v st2
                          (by simp [callClean, symCleanFields_append, hc, hv]) h
                    | err e => dsimp only at h; simp at h
                    | crash => dsimp only at h; simp at h
                    | fuelOut => dsimp only at h; simp at h
            | err e => dsimp only at h; simp at h
            | crash => dsimp only at h; simp at h
            | fuelOut => dsimp only at h; simp at h

theorem scanWsLoop_append (w : List Char) :
    ∀ (buf l : List Char), w.all (fun ch => isWhitespace ch) = true →
      (∀ ch, l.head? = some ch → isWhitespace ch = false ∧ ch ≠ eofCh) →
      scanWhitespaceLoop buf (w ++ l) = (buf ++ w, l) := by
  induction w with
  | nil =>
    intro buf l _ hhead
    cases l with
    | nil => simp [scanWhitespaceLoop]
    | cons c r =>
      obtain ⟨hws, hne⟩ := hhead c rfl
      simp [scanWhitespaceLoop, hne, hws]
  | cons w0 w' ih =>
    intro buf l hall hhead
    simp only [List.all_cons, Bool.and_eq_true] at hall
    have hw0 : isWhitespace w0 = true := hall.1
    have hne0 : w0 ≠ eofCh := by
      intro he; rw [he] at hw0; exact absurd hw0 (by decide)
    simp only [List.cons_append, scanWhitespaceLoop, hne0, if_false, hw0,
      not_true, ite_false]
    show scanWhitespaceLoop (buf ++ [w0]) (w' ++ l) = _
    rw [ih (buf ++ [w0]) l hall.2 hhead]
    simp

theorem scanCore_ws (w : List Char) (l : List Char) (hne : w ≠ [])
    (hall : w.all (fun ch => isWhitespace ch) = true)
    (hhead : ∀ ch, l.head? = some ch → isWhitespace ch = false ∧ ch ≠ eofCh) :
    scanCore (w ++ l) = ((.WHITESPACE, String.mk w), l) := by
  match w with
  | [] => exact absurd rfl hne
  | w0 :: w' =>
    simp only [List.all_cons, Bool.and_eq_true] at hall
    have hw0 : isWhitespace w0 = true := hall.1
    show scanCoreF (((w0 :: w') ++ l).length + 1) ((w0 :: w') ++ l) = _
    rw [List.cons_append, scanCoreF.eq_def]
    simp only [List.length_cons, hw0, if_true]
    show scanWhitespace (w0 :: (w' ++ l)) = _
    simp only [scanWhitespace]
    rw [scanWsLoop_append w' [w0] l hall.2 hhead]
    rfl

/-! ## Claim theorems -/

/-- C5: `0x7fffffffffffffff` parses to the maximum signed 64-bit integer;
`0x8000000000000000` fails with the numeric-conversion error naming base
16 and the stripped literal; `1.0` parses as Float 1.0; `0x1.0` fails
because a radix prefix combined with a fractional part is rejected. -/
theorem c5_numeric_boundary :
    parseString0 "0x7fffffffffffffff" = .ok (some (intV 9223372036854775807)) ∧
    (9223372036854775807 : Int) = 2 ^ 63 - 1 ∧
    parseString0 "0x8000000000000000" =
      .err (.cannotParseInt 16 "8000000000000000") ∧
    parseString0 "1.0" = .ok (some (floatV 1)) ∧
    parseString0 "0x1.0" = .err (.cannotParseReal "0x1.0") :=
  ⟨rfl, by norm_num, rfl, rfl, rfl⟩

/-- C9: in a double-quoted literal, a backslash immediately followed by a
newline makes the scan loop drop the newline and every immediately
following whitespace character while keeping the buffer unchanged; in
particular the quoted input `"abc\⏎   def"` parses to the String value
`abcdef`. -/
theorem c9_escaped_continuation :
    (∀ (f : Nat) (buf : List Char) (l : List Char),
        scanUntilLoopF (f + 2) dquote buf false (bslash :: nlCh :: l) =
          scanUntilLoopF f dquote buf false
            (l.dropWhile (fun c => isWhitespace c))) ∧
    parseString0 "\"abc\\\n   def\"" = .ok (some (stringV "abcdef")) := by
  refine ⟨?_, rfl⟩
  intro f buf l
  show scanUntilLoopF f dquote buf false (wsSkip l) = _
  rw [wsSkip_eq_dropWhile]

/-- C10: the single-quoted inputs `'true'`, `'false'`, `'null'` parse to
Bool and Null values, not Symbol values; and no value produced by a
successful parse contains a Symbol node whose text is one of those three
keywords. -/
theorem c10_keyword_symbols_unreachable :
    parseString0 "\x27true\x27" = .ok (some (boolV 1)) ∧
    parseString0 "\x27false\x27" = .ok (some (boolV 0)) ∧
    parseString0 "\x27null\x27" = .ok (some nullV) ∧
    (∀ (fuel : Nat) (st : PState) (v : Value) (st2 : PState),
        parseRun fuel .top st = (.ok (some v), st2) → symClean v = true) :=
  ⟨rfl, rfl, rfl, fun fuel st v st2 h =>
    parseRun_symClean fuel .top st v st2 rfl h⟩

/-- Witness for C10: the parse of `5` and the cleanliness of its value. -/
theorem c10_witness :
    parseRun 18 .top (initPState ['5']) =
      (.ok (some (intV 5)), ⟨[], .NUMBER, "5", false⟩) ∧
    symClean (intV 5) = true :=
  ⟨rfl, c10_keyword_symbols_unreachable.2.2.2 18 (initPState ['5']) (intV 5)
    ⟨[], .NUMBER, "5", false⟩ rfl⟩

/-- C6 (amended): a symbol followed by `::` makes the parser parse the
rest recursively and then overwrite the returned value's annotations with
the singleton of that symbol, so with several chained annotations the
first-seen (outermost) name wins — not the last-seen one; `a::b::42`
yields annotations `["a"]`. -/
theorem c6_first_annotation_kept :
    (∀ (fuel : Nat) (lit : String) (st stA stB : PState) (nl : String)
        (v : Value),
        pscanIW st = ((.DOUBLE_COLON, nl), stA) →
        parseRun fuel .top stA = (.ok (some v), stB) →
        parseRun (fuel + 1) (.tok .SYMBOL lit) st =
          (.ok (some (withAnns v [lit])), stB)) ∧
    parseString0 "a::b::42" = .ok (some (.mk .IntType ["a"] 42 0 "" [] [])) := by
  refine ⟨?_, rfl⟩
  intro fuel lit st stA stB nl v hscan hparse
  simp only [parseRun]
  rw [hscan]
  dsimp only
  rw [if_pos rfl, hparse]

/-- Witness for C6 at the concrete input `::5` with annotation name x. -/
theorem c6_witness :
    parseRun 18 (.tok .SYMBOL "x") (initPState [':', ':', '5']) =
      (.ok (some (withAnns (intV 5) ["x"])), ⟨[], .NUMBER, "5", false⟩) :=
  c6_first_annotation_kept.1 17 "x" (initPState [':', ':', '5'])
    ⟨['5'], .DOUBLE_COLON, "::", false⟩ ⟨[], .NUMBER, "5", false⟩ "::"
    (intV 5) rfl rfl

/-- C6 counterexample: `a::b::42` keeps the first annotation `a`; the
claim's last-seen name would be `b`. -/
theorem c6_counterexample :
    parseString0 "a::b::42" = .ok (some (.mk .IntType ["a"] 42 0 "" [] [])) ∧
    (["a"] : List String) ≠ ["b"] := ⟨rfl, by decide⟩

/-- C7 (amended): when the input is exhausted at a position where the
sequence or struct loop scans for the next element, field or closer, the
parse fails with the Unexpected-EOF error and no value; exhaustion right
after a field name instead gives the bad-struct-syntax error, and right
after the field colon the code dereferences a nil value (see the
counterexample). -/
theorem c7_unterminated_containers :
    (∀ (f : Nat) (endTok : Token) (acc : List Value) (st stA : PState)
        (lit : String),
        pscanIW st = ((.EOF, lit), stA) →
        parseRun (f + 1) (.seq endTok acc) st = (.err .unexpectedEOF, stA)) ∧
    (∀ (f : Nat) (acc : List (String × Value)) (st stA : PState)
        (lit : String),
        pscanIW st = ((.EOF, lit), stA) →
        parseRun (f + 1) (.strct acc) st = (.err .unexpectedEOF, stA)) ∧
    parseString0 "[" = .err .unexpectedEOF ∧
    parseString0 "(" = .err .unexpectedEOF ∧
    parseString0 "\x7b" = .err .unexpectedEOF ∧
    parseString0 "\x7ba: 1" = .err .unexpectedEOF ∧
    parseString0 "[1, 2" = .err .unexpectedEOF := by
  refine ⟨?_, ?_, rfl, rfl, rfl, rfl, rfl⟩
  · intro f endTok acc st stA lit hscan
    simp only [parseRun]
    rw [hscan]
    dsimp only
    rw [if_pos rfl]
  · intro f acc st stA lit hscan
    simp only [parseRun]
    rw [hscan]
    dsimp only
    rw [if_pos rfl]

/-- Witness for C7 at an empty input inside a list. -/
theorem c7_witness :
    parseRun 5 (.seq .CLOSE_BRACKET []) (initPState []) =
      (.err .unexpectedEOF, ⟨[], .EOF, "", false⟩) :=
  c7_unterminated_containers.1 4 .CLOSE_BRACKET [] (initPState [])
    ⟨[], .EOF, "", false⟩ "" rfl

/-- C7 counterexample: the struct input `{a` is an unterminated container
but fails with the bad-struct-syntax error, not Unexpected EOF, and `{a:`
crashes on a nil dereference instead of returning any error. -/
theorem c7_counterexample :
    parseString0 "\x7ba" = .err (.badStructSyntax .EOF) ∧
    parseString0 "\x7ba:" = .crash ∧
    PErr.badStructSyntax .EOF ≠ PErr.unexpectedEOF ∧
    (PRes.crash ≠ PRes.err .unexpectedEOF) :=
  ⟨rfl, rfl, by nofun, by nofun⟩

/-- C3: parser.go `parseStruct` dereferences the nil result of the
field-name dispatch (a COLON token in field-name position yields a nil
value with nil error) and of the field-value parse (`{a:` runs off the
end), so `Parse` panics on such inputs instead of returning a
`(Value, error)` pair; well-formed fields do parse as name, colon,
value. -/
theorem c3_struct_nil_deref :
    parseString0 "\x7b:\x7d" = .crash ∧
    parseString0 "\x7ba:" = .crash ∧
    parseString0 "\x7ba: 1, \"b\": 2\x7d" =
      .ok (some (structV [("a", intV 1), ("b", intV 2)])) := ⟨rfl, rfl, rfl⟩

/-- C8 (amended): `Unscan` followed by `Scan` returns exactly the pushed
token without consuming input, for every token kind except `ILLEGAL`: the
slot's empty marker is the `ILLEGAL` token, so an unscanned `ILLEGAL`
token is silently dropped. -/
theorem c8_unscan_returns_token (tok : Token) (lit : String) (st : ScanState)
    (h : tok ≠ .ILLEGAL) :
    scanS (scanUnscan tok lit st) = ((tok, lit), ⟨.ILLEGAL, "", st.input⟩) := by
  simp [scanS, scanUnscan, h]

/-- Witness for C8 with an EOF token pushed back. -/
theorem c8_witness :
    scanS (scanUnscan .EOF "" (newScanState ['x'])) =
      ((.EOF, ""), ⟨.ILLEGAL, "", ['x']⟩) :=
  c8_unscan_returns_token .EOF "" (newScanState ['x']) (by decide)

/-- C8 counterexample: an ILLEGAL token previously returned by `Scan` is
lost by `Unscan`; the next `Scan` reads fresh input instead. -/
theorem c8_counterexample :
    scanS (newScanState ['/', 'x']) = ((.ILLEGAL, "/"), ⟨.ILLEGAL, "", ['x']⟩) ∧
    scanS (scanUnscan .ILLEGAL "/" ⟨.ILLEGAL, "", ['x']⟩) =
      ((.SYMBOL, "x"), ⟨.ILLEGAL, "/", []⟩) ∧
    ((Token.SYMBOL, "x") : Token × String) ≠ ((.ILLEGAL, "/") : Token × String) :=
  ⟨rfl, rfl, by decide⟩

/-- C2 (amended): rendering emits the `name::` annotation prefixes only
for Struct-typed values; for every other type the annotations are ignored
by `Value.String`. -/
theorem c2_annotations_only_on_structs :
    (∀ v : Value, v.typ = .StructType →
        render v = annotate v ++ structToString v.structF) ∧
    (∀ v : Value, v.typ ≠ .StructType → render v = render (withAnns v [])) := by
  constructor
  · intro v h
    rcases v with ⟨t, anns, i, f, tx, sq, st⟩
    simp only [Value.typ] at h
    subst h
    simp [render, Value.structF]
  · intro v h
    rcases v with ⟨t, anns, i, f, tx, sq, st⟩
    cases t <;> first
      | exact absurd rfl h
      | simp [render, withAnns]

/-- Witness for C2 at a concrete struct and a concrete annotated int. -/
theorem c2_witness :
    render (structV [("x", intV 1)]) =
      annotate (structV [("x", intV 1)]) ++ structToString [("x", intV 1)] ∧
    render (.mk .IntType ["a"] 5 0 "" [] []) =
      render (withAnns (.mk .IntType ["a"] 5 0 "" [] []) []) :=
  ⟨c2_annotations_only_on_structs.1 (structV [("x", intV 1)]) rfl,
    c2_annotations_only_on_structs.2 (.mk .IntType ["a"] 5 0 "" [] [])
      (by intro hh; exact IonType.noConfusion hh)⟩

/-- C2 counterexample: an Int value carrying annotation `a` renders as
plain `5`, with no `a::` prefix. -/
theorem c2_counterexample :
    (Value.mk .IntType ["a"] 5 0 "" [] []).annotations = ["a"] ∧
    render (.mk .IntType ["a"] 5 0 "" [] []) = "5" ∧
    ("5" : String) ≠ "a::5" := by
  refine ⟨rfl, ?_, by decide⟩
  rw [show render (.mk .IntType ["a"] 5 0 "" [] []) = intDec 5 from by
    simp [render]]
  rfl

/-- C4 (amended): a line comment is transparent at the scanner level (the
token stream of `//…⏎` followed by anything equals that of the rest), and
a leading whitespace run is transparent to the parser provided the text
after it does not itself scan to a WHITESPACE token; since the parser
skips only one whitespace token before dispatch, a comment both preceded
and followed by whitespace yields a WHITESPACE token to the grammar and
parsing fails (see the counterexample). -/
theorem c4_whitespace_comment_prefixes :
    (∀ (c l : List Char), nlCh ∉ c → eofCh ∉ c →
        scanCore ('/' :: '/' :: (c ++ nlCh :: l)) = scanCore l) ∧
    (∀ (f : Nat) (w l : List Char), w ≠ [] →
        w.all (fun ch => isWhitespace ch) = true →
        (∀ ch, l.head? = some ch → isWhitespace ch = false ∧ ch ≠ eofCh) →
        (scanCore l).1.1 ≠ .WHITESPACE →
        parseRun (f + 1) .top (initPState (w ++ l)) =
          parseRun (f + 1) .top (initPState l)) ∧
    parseString0 "// comment\n42" = .ok (some (intV 42)) ∧
    parseString0 "42" = .ok (some (intV 42)) := by
  refine ⟨?_, ?_, rfl, rfl⟩
  · intro c l hnl hz
    have h1 : scanCore ('/' :: '/' :: (c ++ nlCh :: l)) =
        scanCoreF ((c ++ nlCh :: l).length + 2) (skipLine (c ++ nlCh :: l)) := rfl
    rw [h1, skipLine_append c l hnl hz]
    exact scanCoreF_irrel _ _ l
      (by simp [List.length_append]; omega) (by omega)
  · intro f w l hne hall hhead hnws
    have hIW : pscanIW (initPState (w ++ l)) = pscanIW (initPState l) := by
      rcases hl : scanCore l with ⟨⟨t2, s2⟩, r2⟩
      have ht2 : t2 ≠ .WHITESPACE := by
        rw [hl] at hnws; exact hnws
      show pscanIW ⟨w ++ l, .ILLEGAL, "", false⟩ = pscanIW ⟨l, .ILLEGAL, "", false⟩
      simp only [pscanIW, pscan, Bool.false_eq_true, if_false,
        scanCore_ws w l hne hall hhead, hl]
      simp [ht2]
    simp only [parseRun]
    rw [hIW]

/-- Witness for C4: a comment prefix and a whitespace prefix at concrete
inputs. -/
theorem c4_witness :
    scanCore ('/' :: '/' :: (['c'] ++ nlCh :: ['5'])) = scanCore ['5'] ∧
    parseRun 17 .top (initPState ([' '] ++ ['5'])) =
      parseRun 17 .top (initPState ['5']) :=
  ⟨c4_whitespace_comment_prefixes.1 ['c'] ['5'] (by decide) (by decide),
    c4_whitespace_comment_prefixes.2.1 16 [' '] ['5'] (by decide) (by decide)
      (by
        intro ch hch
        injection hch with h2
        subst h2
        exact ⟨rfl, by decide⟩)
      (by decide)⟩

/-! ## Scanning of rendered text (towards the round-trip theorem) -/

theorem scanCore_cons (c : Char) (l : List Char) :
    scanCore (c :: l) =
      if isWhitespace c = true then scanWhitespace (c :: l)
      else if isLetter c = true then scanIdentifier (c :: l)
      else if c = eofCh then ((.EOF, ""), l)
      else if c = '/' then
        (match l with
          | [] => ((.ILLEGAL, "/"), [])
          | c2 :: r2 =>
            if c2 = '/' then scanCoreF (l.length + 1) (skipLine r2)
            else ((.ILLEGAL, "/"), c2 :: r2))
      else if c = ':' then
        (match l with
          | [] => ((.COLON, ":"), [])
          | c2 :: r2 =>
            if c2 = ':' then ((.DOUBLE_COLON, "::"), r2)
            else ((.COLON, ":"), c2 :: r2))
      else if c = squote then scanUntil .SYMBOL squote l
      else if c = dquote then scanUntil .STRING dquote l
      else if c = ',' then ((.COMMA, String.mk [c]), l)
      else if c = obraceCh then ((.OPEN_BRACE, String.mk [c]), l)
      else if c = cbraceCh then ((.CLOSE_BRACE, String.mk [c]), l)
      else if c = '[' then ((.OPEN_BRACKET, String.mk [c]), l)
      else if c = ']' then ((.CLOSE_BRACKET, String.mk [c]), l)
      else if c = '(' then ((.OPEN_PAREN, String.mk [c]), l)
      else if c = ')' then ((.CLOSE_PAREN, String.mk [c]), l)
      else if isDigit c = true then scanNumber c l
      else ((.ILLEGAL, String.mk [c]), l) := by
  cases l with
  | nil => rfl
  | cons c2 r2 => rfl

theorem scanCore_nil : scanCore [] = ((.EOF, ""), []) := rfl

theorem scanCore_comma (l : List Char) :
    scanCore (',' :: l) = ((.COMMA, ","), l) := rfl

theorem scanCore_obrace (l : List Char) :
    scanCore (obraceCh :: l) = ((.OPEN_BRACE, String.mk [obraceCh]), l) := rfl

theorem scanCore_cbrace (l : List Char) :
    scanCore (cbraceCh :: l) = ((.CLOSE_BRACE, String.mk [cbraceCh]), l) := rfl

theorem scanCore_obracket (l : List Char) :
    scanCore ('[' :: l) = ((.OPEN_BRACKET, "["), l) := rfl

theorem scanCore_cbracket (l : List Char) :
    scanCore (']' :: l) = ((.CLOSE_BRACKET, "]"), l) := rfl

theorem scanCore_oparen (l : List Char) :
    scanCore ('(' :: l) = ((.OPEN_PAREN, "("), l) := rfl

theorem scanCore_cparen (l : List Char) :
    scanCore (')' :: l) = ((.CLOSE_PAREN, ")"), l) := rfl

theorem scanCore_colon_space (l : List Char) :
    scanCore (':' :: ' ' :: l) = ((.COLON, ":"), ' ' :: l) := rfl

theorem scanCore_dcolon (l : List Char) :
    scanCore (':' :: ':' :: l) = ((.DOUBLE_COLON, "::"), l) := rfl

theorem isLetter_not_ws (c : Char) (h : isLetter c = true) :
    isWhitespace c = false := by
  by_cases hw : isWhitespace c = true
  · simp only [isWhitespace, Bool.or_eq_true, decide_eq_true_eq] at hw
    rcases hw with (h1 | h1) | h1 <;> (subst h1; exact absurd h (by decide))
  · simpa using hw

theorem scanIdentLoop_append (cs : List Char) :
    ∀ (buf l : List Char), cs.all (fun ch => identChar ch) = true →
      (∀ ch, l.head? = some ch → identChar ch = false ∧ ch ≠ eofCh) →
      scanIdentifierLoop buf (cs ++ l) = (buf ++ cs, l) := by
  induction cs with
  | nil =>
    intro buf l _ hhead
    cases l with
    | nil => simp [scanIdentifierLoop]
    | cons ch r =>
      obtain ⟨hid, hne⟩ := hhead ch rfl
      simp only [identChar, Bool.or_eq_false_iff] at hid
      simp [scanIdentifierLoop, List.nil_append, hne, hid.1.1, hid.1.2, hid.2]
  | cons c0 cs' ih =>
    intro buf l hall hhead
    simp only [List.all_cons, Bool.and_eq_true] at hall
    have hc0 : identChar c0 = true := hall.1
    have hne0 : c0 ≠ eofCh := by
      intro he
      rw [he] at hc0
      exact absurd hc0 (by decide)
    simp only [identChar, Bool.or_eq_true] at hc0
    have hnb : (¬ isLetter c0 && ¬ isDigit c0 && c0 ≠ '_') = false := by
      rcases hc0 with (h | h) | h <;> simp [h]
    simp only [List.cons_append, scanIdentifierLoop, hne0, if_false, hnb,
      Bool.false_eq_true, ite_false]
    show scanIdentifierLoop (buf ++ [c0]) (cs' ++ l) = _
    rw [ih (buf ++ [c0]) l hall.2 hhead]
    simp

theorem scanCore_ident (name : String) (l : List Char)
    (hid : identOk name = true)
    (hhead : ∀ ch, l.head? = some ch → identChar ch = false ∧ ch ≠ eofCh) :
    scanCore (name.data ++ l) = ((.SYMBOL, name), l) := by
  rcases hnm : name.data with _ | ⟨c0, cs⟩
  · rw [identOk, hnm] at hid
    exact absurd hid (by decide)
  · rw [identOk, hnm] at hid
    simp only [Bool.and_eq_true] at hid
    have hl : isLetter c0 = true := hid.1
    have hw : isWhitespace c0 = false := isLetter_not_ws c0 hl
    rw [List.cons_append, scanCore_cons, hw, if_neg (by simp), hl, if_pos rfl]
    simp only [scanIdentifier]
    rw [scanIdentLoop_append cs [c0] l hid.2 hhead]
    show ((Token.SYMBOL, String.mk (c0 :: cs)), l) = _
    rw [← hnm]

theorem digitChar_class (d : Nat) (h : d < 10) :
    charDigit 10 (digitChar d) = some d ∧
    isDigit (digitChar d) = true ∧
    isWhitespace (digitChar d) = false ∧
    isLetter (digitChar d) = false ∧
    digitChar d ∈ decDigits ∧
    digitChar d ≠ eofCh ∧ digitChar d ≠ '/' ∧ digitChar d ≠ ':' ∧
    digitChar d ≠ squote ∧ digitChar d ≠ dquote ∧ digitChar d ≠ ',' ∧
    digitChar d ≠ obraceCh ∧ digitChar d ≠ cbraceCh ∧
    digitChar d ≠ '[' ∧ digitChar d ≠ ']' ∧
    digitChar d ≠ '(' ∧ digitChar d ≠ ')' ∧
    digitChar d ≠ '-' ∧ digitChar d ≠ '+' ∧
    digitChar d ≠ 'x' ∧ digitChar d ≠ 'b' ∧ digitChar d ≠ '.' := by
  interval_cases d <;> exact ⟨rfl, by decide⟩

theorem natDecCore_append (fuel : Nat) :
    ∀ (n : Nat) (acc : List Char),
      natDecCore fuel n acc = natDecCore fuel n [] ++ acc := by
  induction fuel with
  | zero => intro n acc; rfl
  | succ f ih =>
    intro n acc
    simp only [natDecCore]
    by_cases h : n / 10 = 0
    · simp [h]
    · simp only [h, if_false]
      rw [ih (n / 10) (digitChar (n % 10) :: acc),
        ih (n / 10) [digitChar (n % 10)]]
      simp

theorem natDecCore_digits (fuel : Nat) :
    ∀ (n : Nat) (acc : List Char),
      (∀ ch ∈ acc, ∃ d, d < 10 ∧ ch = digitChar d) →
      ∀ ch ∈ natDecCore fuel n acc, ∃ d, d < 10 ∧ ch = digitChar d := by
  induction fuel with
  | zero => intro n acc hacc; exact hacc
  | succ f ih =>
    intro n acc hacc
    have hcons : ∀ ch ∈ digitChar (n % 10) :: acc, ∃ d, d < 10 ∧ ch = digitChar d := by
      intro ch hch
      rcases List.mem_cons.mp hch with h | h
      · exact ⟨n % 10, Nat.mod_lt _ (by omega), h⟩
      · exact hacc ch h
    simp only [natDecCore]
    by_cases h : n / 10 = 0
    · simp only [h, if_true]
      exact hcons
    · simp only [h, if_false]
      exact ih (n / 10) _ hcons

theorem natDecCore_len (fuel : Nat) :
    ∀ (n : Nat) (acc : List Char),
      acc.length ≤ (natDecCore fuel n acc).length := by
  induction fuel with
  | zero => intro n acc; exact Nat.le_refl _
  | succ f ih =>
    intro n acc
    simp only [natDecCore]
    by_cases h : n / 10 = 0
    · simp [h]
    · simp only [h, if_false]
      calc acc.length ≤ (digitChar (n % 10) :: acc).length := by simp
        _ ≤ _ := ih (n / 10) _

theorem natDec_ne_nil (n : Nat) : (natDec n).data ≠ [] := by
  show natDecCore (n + 1) n [] ≠ []
  intro h
  have h2 := natDecCore_len n n [digitChar (n % 10)]
  simp only [natDecCore] at h
  by_cases hq : n / 10 = 0
  · simp [hq] at h
  · simp only [hq, if_false] at h
    rw [natDecCore_append] at h
    rcases List.append_eq_nil.mp h with ⟨_, h3⟩
    exact List.cons_ne_nil _ _ h3

theorem parseUintLoop_append (base : Nat) (xs : List Char) :
    ∀ (ys : List Char) (a : Nat),
      parseUintLoop base a (xs ++ ys) =
        match parseUintLoop base a xs with
        | some m => parseUintLoop base m ys
        | none => none := by
  induction xs with
  | nil => intro ys a; rfl
  | cons x xs' ih =>
    intro ys a
    simp only [List.cons_append, parseUintLoop]
    cases charDigit base x with
    | none => rfl
    | some d => exact ih ys (base * a + d)

theorem parseUintLoop_natDec (fuel : Nat) :
    ∀ (n : Nat), n < fuel →
      parseUintLoop 10 0 (natDecCore fuel n []) = some n := by
  induction fuel with
  | zero => intro n h; omega
  | succ f ih =>
    intro n h
    simp only [natDecCore]
    by_cases hq : n / 10 = 0
    · simp only [hq, if_true]
      have hd := (digitChar_class (n % 10) (Nat.mod_lt _ (by omega))).1
      simp [parseUintLoop, hd]
      omega
    · simp only [hq, if_false]
      rw [natDecCore_append]
      rw [parseUintLoop_append]
      have hlt : n / 10 < f := by
        have h1 : 0 < n := by
          by_contra hc
          simp only [Nat.not_lt, Nat.le_zero] at hc
          subst hc
          simp at hq
        have h2 : n / 10 < n := Nat.div_lt_self h1 (by omega)
        omega
      rw [ih (n / 10) hlt]
      have hd := (digitChar_class (n % 10) (Nat.mod_lt _ (by omega))).1
      simp [parseUintLoop, hd]
      omega

theorem parseInt64_natDec (n : Nat) (h : n < 9223372036854775808) :
    parseInt64 (natDec n) 10 = some (n : Int) := by
  unfold parseInt64
  rcases hds : (natDec n).data with _ | ⟨c, rest⟩
  · exact absurd hds (natDec_ne_nil n)
  · have hdig : ∀ ch ∈ c :: rest, ∃ d, d < 10 ∧ ch = digitChar d := by
      rw [← hds]
      exact natDecCore_digits (n + 1) n [] (by simp)
    obtain ⟨d0, hd0, hc0⟩ := hdig c (List.mem_cons_self c rest)
    have hfacts := digitChar_class d0 hd0
    have hne1 : c ≠ '-' := hc0 ▸ hfacts.2.2.2.2.2.2.2.2.2.2.2.2.2.2.2.2.2.1
    have hne2 : c ≠ '+' := hc0 ▸ hfacts.2.2.2.2.2.2.2.2.2.2.2.2.2.2.2.2.2.2.1
    simp only [hne1, hne2, if_false]
    have hloop : parseUintLoop 10 0 (c :: rest) = some n := by
      rw [← hds]
      exact parseUintLoop_natDec (n + 1) n (by omega)
    simp only [List.isEmpty_cons, Bool.false_eq_true, if_false, hloop]
    simp [h]

theorem numLoop_stop (buf l : List Char)
    (hl : ∀ ch, l.head? = some ch → ch ∉ decDigits ∧ ch ≠ eofCh) :
    numLoop decDigits buf l = (buf, l) := by
  cases l with
  | nil => rfl
  | cons ch r =>
    obtain ⟨hnd, hne⟩ := hl ch rfl
    simp [numLoop, hne, hnd]

theorem numLoop_digits (ds : List Char) :
    ∀ (buf l : List Char), (∀ ch ∈ ds, ∃ d, d < 10 ∧ ch = digitChar d) →
      (∀ ch, l.head? = some ch → ch ∉ decDigits ∧ ch ≠ eofCh) →
      numLoop decDigits buf (ds ++ l) = (buf ++ ds, l) := by
  induction ds with
  | nil =>
    intro buf l _ hl
    simpa using numLoop_stop buf l hl
  | cons d0 ds' ih =>
    intro buf l hds hl
    obtain ⟨e0, he0, hd0⟩ := hds d0 (List.mem_cons_self d0 ds')
    have hf := digitChar_class e0 he0
    have hmem : d0 ∈ decDigits := hd0 ▸ hf.2.2.2.2.1
    have hne : d0 ≠ eofCh := hd0 ▸ hf.2.2.2.2.2.1
    simp only [List.cons_append, numLoop, hne, if_false, hmem, if_pos]
    show numLoop decDigits (buf ++ [d0]) (ds' ++ l) = _
    rw [ih (buf ++ [d0]) l (fun ch hch => hds ch (List.mem_cons_of_mem _ hch)) hl]
    simp

theorem scanNumber_dec (first : Char) (ds l : List Char)
    (hfirst : ∃ d, d < 10 ∧ first = digitChar d)
    (hds : ∀ ch ∈ ds, ∃ d, d < 10 ∧ ch = digitChar d)
    (hl : ∀ ch, l.head? = some ch →
      ch ∉ decDigits ∧ ch ≠ eofCh ∧ ch ≠ 'x' ∧ ch ≠ 'b') :
    scanNumber first (ds ++ l) = ((.NUMBER, String.mk (first :: ds)), l) := by
  have hstop : ∀ ch, l.head? = some ch → ch ∉ decDigits ∧ ch ≠ eofCh :=
    fun ch hch => ⟨(hl ch hch).1, (hl ch hch).2.1⟩
  cases ds with
  | nil =>
    cases l with
    | nil => rfl
    | cons ch r =>
      obtain ⟨hnd, hne, hnx, hnb⟩ := hl ch rfl
      simp only [List.nil_append, scanNumber, hne, if_false]
      by_cases h0 : first = '0'
      · simp only [h0, if_pos, hnx, if_false, hnb]
        rw [numLoop_stop ['0'] (ch :: r) hstop]
      · simp only [h0, if_false]
        rw [numLoop_stop [first] (ch :: r) hstop]
  | cons d1 ds' =>
    obtain ⟨e1, he1, hd1⟩ := hds d1 (List.mem_cons_self d1 ds')
    have hf1 := digitChar_class e1 he1
    have hne : d1 ≠ eofCh := hd1 ▸ hf1.2.2.2.2.2.1
    have hnx : d1 ≠ 'x' := hd1 ▸ hf1.2.2.2.2.2.2.2.2.2.2.2.2.2.2.2.2.2.2.2.1
    have hnb : d1 ≠ 'b' := hd1 ▸ hf1.2.2.2.2.2.2.2.2.2.2.2.2.2.2.2.2.2.2.2.2.1
    have hloop := numLoop_digits (d1 :: ds') [first] l hds hstop
    rw [List.cons_append] at hloop
    simp only [List.cons_append, scanNumber, hne, if_false]
    by_cases h0 : first = '0'
    · subst h0
      simp only [if_pos rfl, hnx, if_false, hnb]
      simp [hloop]
    · simp only [h0, if_false]
      simp [hloop]

theorem scanCore_natDec (n : Nat) (l : List Char)
    (hl : ∀ ch, l.head? = some ch →
      ch ∉ decDigits ∧ ch ≠ eofCh ∧ ch ≠ 'x' ∧ ch ≠ 'b') :
    scanCore ((natDec n).data ++ l) = ((.NUMBER, natDec n), l) := by
  rcases hds : (natDec n).data with _ | ⟨c, rest⟩
  · exact absurd hds (natDec_ne_nil n)
  · have hdig : ∀ ch ∈ c :: rest, ∃ d, d < 10 ∧ ch = digitChar d := by
      rw [← hds]
      exact natDecCore_digits (n + 1) n [] (by simp)
    obtain ⟨d0, hd0, hc0⟩ := hdig c (List.mem_cons_self c rest)
    subst hc0
    have hf := digitChar_class d0 hd0
    rw [List.cons_append, scanCore_cons]
    simp only [hf.2.1, hf.2.2.1, hf.2.2.2.1, hf.2.2.2.2.2.1,
      hf.2.2.2.2.2.2.1, hf.2.2.2.2.2.2.2.1, hf.2.2.2.2.2.2.2.2.1,
      hf.2.2.2.2.2.2.2.2.2.1, hf.2.2.2.2.2.2.2.2.2.2.1,
      hf.2.2.2.2.2.2.2.2.2.2.2.1, hf.2.2.2.2.2.2.2.2.2.2.2.2.1,
      hf.2.2.2.2.2.2.2.2.2.2.2.2.2.1, hf.2.2.2.2.2.2.2.2.2.2.2.2.2.2.1,
      hf.2.2.2.2.2.2.2.2.2.2.2.2.2.2.2.1,
      hf.2.2.2.2.2.2.2.2.2.2.2.2.2.2.2.2.1,
      Bool.false_eq_true, if_false, ite_false, ite_true, if_true]
    rw [scanNumber_dec (digitChar d0) rest l ⟨d0, hd0, rfl⟩
      (fun ch hch => hdig ch (List.mem_cons_of_mem _ hch)) hl]
    rw [← hds]

theorem not_contains_of_ne (a : Char) (l : List Char)
    (h : ∀ ch ∈ l, ch ≠ a) : l.contains a = false := by
  induction l with
  | nil => rfl
  | cons c r ih =>
    have hc : c ≠ a := h c (List.mem_cons_self c r)
    have hr := ih (fun ch hch => h ch (List.mem_cons_of_mem _ hch))
    simp only [List.contains_cons, hr, Bool.or_false, beq_eq_false_iff_ne]
    exact Ne.symm hc

theorem natDec_not_dot (n : Nat) : (natDec n).data.contains '.' = false := by
  apply not_contains_of_ne
  intro ch hch
  obtain ⟨d, hd, hcd⟩ := natDecCore_digits (n + 1) n [] (by simp) ch hch
  exact hcd ▸ (digitChar_class d hd).2.2.2.2.2.2.2.2.2.2.2.2.2.2.2.2.2.2.2.2.2

theorem hasPfx_natDec (n : Nat) (c2 : Char)
    (hc2 : ∀ d, d < 10 → digitChar d ≠ c2) :
    hasPfx ['0', c2] (natDec n).data = false := by
  by_contra hcon
  rw [Bool.not_eq_false, hasPfx, List.isPrefixOf_iff_prefix] at hcon
  obtain ⟨t, ht⟩ := hcon
  have hmem : c2 ∈ (natDec n).data := by
    rw [← ht]
    simp
  obtain ⟨d, hd, hcd⟩ := natDecCore_digits (n + 1) n [] (by simp) c2 hmem
  exact hc2 d hd hcd.symm

theorem numberResult_natDec (n : Nat) (h : n < 9223372036854775808) :
    numberResult (natDec n) = .ok (some (intV (n : Int))) := by
  unfold numberResult
  have hx : hasPfx ['0', 'x'] (natDec n).data = false :=
    hasPfx_natDec n 'x'
      (fun d hd => (digitChar_class d hd).2.2.2.2.2.2.2.2.2.2.2.2.2.2.2.2.2.2.2.1)
  have hb : hasPfx ['0', 'b'] (natDec n).data = false :=
    hasPfx_natDec n 'b'
      (fun d hd => (digitChar_class d hd).2.2.2.2.2.2.2.2.2.2.2.2.2.2.2.2.2.2.2.2.1)
  simp only [natDec_not_dot n, Bool.false_eq_true, if_false, hx, hb]
  rw [parseInt64_natDec n h]

theorem intDec_nonneg (i : Int) (h : 0 ≤ i) : intDec i = natDec i.toNat := by
  unfold intDec
  rw [if_neg (by omega)]

theorem numberResult_intDec (i : Int) (h0 : 0 ≤ i)
    (h1 : i < 9223372036854775808) :
    numberResult (intDec i) = .ok (some (intV i)) := by
  rw [intDec_nonneg i h0, numberResult_natDec i.toNat (by omega)]
  rw [Int.toNat_of_nonneg h0]

theorem scanCore_intDec (i : Int) (l : List Char) (h0 : 0 ≤ i)
    (hl : ∀ ch, l.head? = some ch →
      ch ∉ decDigits ∧ ch ≠ eofCh ∧ ch ≠ 'x' ∧ ch ≠ 'b') :
    scanCore ((intDec i).data ++ l) = ((.NUMBER, intDec i), l) := by
  rw [intDec_nonneg i h0]
  exact scanCore_natDec i.toNat l hl

theorem symChar_props (c : Char) (h : symChar c = true) :
    c ≠ squote ∧ c ≠ bslash ∧ c ≠ eofCh := by
  simp only [symChar, Bool.and_eq_true, decide_eq_true_eq] at h
  exact ⟨h.1.1, h.1.2, h.2⟩

theorem scanUntilLoop_raw (cs : List Char) :
    ∀ (f : Nat) (buf l : List Char),
      cs.all (fun ch => symChar ch) = true → cs.length + 2 ≤ f →
      scanUntilLoopF f squote buf false (cs ++ squote :: l) =
        (.inl (buf ++ cs), l) := by
  induction cs with
  | nil =>
    intro f buf l _ hf
    obtain ⟨f2, rfl⟩ : ∃ f2, f = f2 + 1 := ⟨f - 1, by omega⟩
    simp only [List.nil_append, List.append_nil]
    rfl
  | cons c cs' ih =>
    intro f buf l hall hf
    simp only [List.all_cons, Bool.and_eq_true] at hall
    obtain ⟨h1, h2, h3⟩ := symChar_props c hall.1
    obtain ⟨f2, rfl⟩ : ∃ f2, f = f2 + 1 := ⟨f - 1, by omega⟩
    simp only [List.cons_append, scanUntilLoopF, h3, if_false,
      Bool.false_eq_true, h1, h2, ite_false]
    show scanUntilLoopF f2 squote (buf ++ [c]) false (cs' ++ squote :: l) = _
    rw [ih f2 (buf ++ [c]) l hall.2 (by simp at hf ⊢; omega)]
    simp

theorem scanCore_symbolTok (tx : String) (l : List Char)
    (hne : tx.data ≠ [])
    (hall : tx.data.all (fun ch => symChar ch) = true) :
    scanCore (squote :: (tx.data ++ squote :: l)) = ((.SYMBOL, tx), l) := by
  have h1 : scanCore (squote :: (tx.data ++ squote :: l)) =
      scanUntil .SYMBOL squote (tx.data ++ squote :: l) := rfl
  rw [h1]
  rcases htx : tx.data with _ | ⟨c0, cs⟩
  · exact absurd htx hne
  · rw [htx] at hall
    simp only [List.all_cons, Bool.and_eq_true] at hall
    show (match scanUntilLoopF ((cs ++ squote :: l).length + 1) squote [c0]
        false (cs ++ squote :: l) with
      | (.inl buf, rest2) => ((Token.SYMBOL, String.mk buf), rest2)
      | (.inr bad, rest2) => ((.ILLEGAL, String.mk [bslash, bad]), rest2)) = _
    rw [scanUntilLoop_raw cs ((cs ++ squote :: l).length + 1) [c0] l hall.2
      (by simp only [List.length_append, List.length_cons]; omega)]
    show ((Token.SYMBOL, String.mk (c0 :: cs)), l) = _
    rw [← htx]

theorem plainChar_props (c : Char) (h : plainChar c = true) :
    0x20 ≤ c.toNat ∧ c.toNat ≤ 0x7e ∧ c ≠ dquote ∧ c ≠ bslash ∧
      c ≠ eofCh ∧ c ≠ nlCh ∧ c ≠ crCh ∧ c ≠ tabCh := by
  simp only [plainChar, Bool.and_eq_true, decide_eq_true_eq] at h
  obtain ⟨⟨⟨hlo, hhi⟩, hdq⟩, hbs⟩ := h
  refine ⟨hlo, hhi, hdq, hbs, ?_, ?_, ?_, ?_⟩ <;>
    (intro he; rw [he] at hlo; revert hlo; decide)

theorem quoteChar_plain (c : Char) (h : plainChar c = true) :
    quoteChar c = [c] := by
  obtain ⟨hlo, hhi, hdq, hbs, _, hnl, hcr, htab⟩ := plainChar_props c h
  unfold quoteChar
  rw [if_neg hdq, if_neg hbs, if_neg (by omega), if_neg (by omega),
    if_neg (by omega), if_neg hnl, if_neg hcr, if_neg htab,
    if_neg (by omega), if_neg (by simp; omega)]

theorem strTail_cases (c : Char) (h : strTailChar c = true) :
    plainChar c = true ∨ c = dquote ∨ c = tabCh ∨ c = nlCh ∨ c = crCh := by
  simp only [strTailChar, Bool.or_eq_true, decide_eq_true_eq] at h
  tauto

theorem quoteChar_dq : quoteChar dquote = [bslash, dquote] := rfl

theorem quoteChar_tab : quoteChar tabCh = [bslash, 't'] := rfl

theorem quoteChar_nl : quoteChar nlCh = [bslash, 'n'] := rfl

theorem quoteChar_cr : quoteChar crCh = [bslash, 'r'] := rfl

theorem scanUntilLoop_qbody (cs : List Char) :
    ∀ (f : Nat) (buf l : List Char),
      cs.all (fun ch => strTailChar ch) = true → (qbody cs).length + 2 ≤ f →
      scanUntilLoopF f dquote buf false (qbody cs ++ dquote :: l) =
        (.inl (buf ++ cs), l) := by
  induction cs with
  | nil =>
    intro f buf l _ hf
    obtain ⟨f2, rfl⟩ : ∃ f2, f = f2 + 1 := ⟨f - 1, by omega⟩
    show scanUntilLoopF (f2 + 1) dquote buf false
      ([] ++ dquote :: l) = (.inl (buf ++ []), l)
    simp only [List.nil_append, List.append_nil]
    rfl
  | cons c cs' ih =>
    intro f buf l hall hf
    simp only [List.all_cons, Bool.and_eq_true] at hall
    have hq : qbody (c :: cs') = quoteChar c ++ qbody cs' := rfl
    rcases strTail_cases c hall.1 with hp | hc | hc | hc | hc
    · obtain ⟨hlo, hhi, hdq, hbs, hz, _, _, _⟩ := plainChar_props c hp
      obtain ⟨f2, rfl⟩ : ∃ f2, f = f2 + 1 := ⟨f - 1, by omega⟩
      rw [hq, quoteChar_plain c hp]
      simp only [List.cons_append, List.nil_append, scanUntilLoopF, hz,
        if_false, Bool.false_eq_true, hdq, hbs, ite_false]
      show scanUntilLoopF f2 dquote (buf ++ [c]) false
        (qbody cs' ++ dquote :: l) = _
      rw [ih f2 (buf ++ [c]) l hall.2
        (by rw [hq, quoteChar_plain c hp] at hf; simp at hf ⊢; omega)]
      simp
    · subst hc
      obtain ⟨f2, rfl⟩ : ∃ f2, f = f2 + 2 := ⟨f - 2,
        by rw [hq, quoteChar_dq] at hf; simp at hf; omega⟩
      rw [hq, quoteChar_dq]
      show scanUntilLoopF f2 dquote (buf ++ [dquote]) false
        (qbody cs' ++ dquote :: l) = _
      rw [ih f2 (buf ++ [dquote]) l hall.2
        (by rw [hq, quoteChar_dq] at hf; simp at hf ⊢; omega)]
      simp
    · subst hc
      obtain ⟨f2, rfl⟩ : ∃ f2, f = f2 + 2 := ⟨f - 2,
        by rw [hq, quoteChar_tab] at hf; simp at hf; omega⟩
      rw [hq, quoteChar_tab]
      show scanUntilLoopF f2 dquote (buf ++ [tabCh]) false
        (qbody cs' ++ dquote :: l) = _
      rw [ih f2 (buf ++ [tabCh]) l hall.2
        (by rw [hq, quoteChar_tab] at hf; simp at hf ⊢; omega)]
      simp
    · subst hc
      obtain ⟨f2, rfl⟩ : ∃ f2, f = f2 + 2 := ⟨f - 2,
        by rw [hq, quoteChar_nl] at hf; simp at hf; omega⟩
      rw [hq, quoteChar_nl]
      show scanUntilLoopF f2 dquote (buf ++ [nlCh]) false
        (qbody cs' ++ dquote :: l) = _
      rw [ih f2 (buf ++ [nlCh]) l hall.2
        (by rw [hq, quoteChar_nl] at hf; simp at hf ⊢; omega)]
      simp
    · subst hc
      obtain ⟨f2, rfl⟩ : ∃ f2, f = f2 + 2 := ⟨f - 2,
        by rw [hq, quoteChar_cr] at hf; simp at hf; omega⟩
      rw [hq, quoteChar_cr]
      show scanUntilLoopF f2 dquote (buf ++ [crCh]) false
        (qbody cs' ++ dquote :: l) = _
      rw [ih f2 (buf ++ [crCh]) l hall.2
        (by rw [hq, quoteChar_cr] at hf; simp at hf ⊢; omega)]
      simp

theorem scanCore_stringTok (tx : String) (l : List Char)
    (hok : strOk tx = true) :
    scanCore ((quoteGo tx).data ++ l) = ((.STRING, tx), l) := by
  rcases htx : tx.data with _ | ⟨c0, cs⟩
  · rw [strOk, htx] at hok
    exact absurd hok (by decide)
  · rw [strOk, htx] at hok
    simp only [Bool.and_eq_true] at hok
    have hdata : (quoteGo tx).data ++ l =
        dquote :: (quoteChar c0 ++ (qbody cs ++ dquote :: l)) := by
      show ([dquote] ++ (tx.data.map quoteChar).flatten ++ [dquote]) ++ l = _
      rw [htx]
      show dquote :: ((quoteChar c0 ++ qbody cs) ++ [dquote]) ++ l = _
      simp [List.append_assoc]
    rw [hdata, quoteChar_plain c0 hok.1]
    simp only [List.singleton_append]
    have h1 : scanCore (dquote :: (c0 :: (qbody cs ++ dquote :: l))) =
        scanUntil .STRING dquote (c0 :: (qbody cs ++ dquote :: l)) := rfl
    rw [h1]
    show (match scanUntilLoopF ((qbody cs ++ dquote :: l).length + 1) dquote
        [c0] false (qbody cs ++ dquote :: l) with
      | (.inl buf, rest2) => ((Token.STRING, String.mk buf), rest2)
      | (.inr bad, rest2) => ((.ILLEGAL, String.mk [bslash, bad]), rest2)) = _
    rw [scanUntilLoop_qbody cs ((qbody cs ++ dquote :: l).length + 1) [c0] l
      hok.2 (by simp only [List.length_append, List.length_cons]; omega)]
    show ((Token.STRING, String.mk (c0 :: cs)), l) = _
    rw [← htx]

theorem parseRun_mono :
    ∀ (f : Nat) (call : PCall) (st : PState) (r : PRes) (st2 : PState),
      parseRun f call st = (r, st2) → r ≠ .fuelOut →
      parseRun (f + 1) call st = (r, st2) := by
  intro f
  induction f with
  | zero =>
    intro call st r st2 h hne
    simp only [parseRun] at h
    injection h with h1 h2
    exact absurd h1.symm hne
  | succ f ih =>
    intro call st r st2 h hne
    cases call with
    | top =>
      rcases he : pscanIW st with ⟨⟨t, l⟩, stA⟩
      rw [parseRun.eq_2, he] at h
      rw [parseRun.eq_2, he]
      dsimp only at h ⊢
      exact ih _ _ _ _ h hne
    | tok tok lit =>
      cases tok with
      | EOF => rw [parseRun.eq_3] at h ⊢; exact h
      | ILLEGAL => rw [parseRun.eq_4] at h ⊢; exact h
      | CLOSE_BRACE => rw [parseRun.eq_9] at h ⊢; exact h
      | CLOSE_BRACKET => rw [parseRun.eq_10] at h ⊢; exact h
      | CLOSE_PAREN => rw [parseRun.eq_11] at h ⊢; exact h
      | DOUBLE_COLON => rw [parseRun.eq_12] at h ⊢; exact h
      | COMMA => rw [parseRun.eq_13] at h ⊢; exact h
      | COLON => rw [parseRun.eq_14] at h ⊢; exact h
      | NUMBER => rw [parseRun.eq_15] at h ⊢; exact h
      | STRING => rw [parseRun.eq_16] at h ⊢; exact h
      | WHITESPACE => rw [parseRun.eq_17] at h ⊢; exact h
      | OPEN_PAREN =>
        rw [parseRun.eq_6] at h ⊢
        exact ih _ _ _ _ h hne
      | OPEN_BRACKET =>
        rw [parseRun.eq_7] at h ⊢
        exact ih _ _ _ _ h hne
      | OPEN_BRACE =>
        rw [parseRun.eq_8] at h ⊢
        exact ih _ _ _ _ h hne
      | SYMBOL =>
        rcases he : pscanIW st with ⟨⟨nt, nl⟩, stA⟩
        rw [parseRun.eq_5, he] at h
        rw [parseRun.eq_5, he]
        dsimp only at h ⊢
        by_cases hd : nt = .DOUBLE_COLON
        · rw [if_pos hd] at h ⊢
          rcases hr2 : parseRun f .top stA with ⟨r2, stB⟩
          rw [hr2] at h
          cases r2 with
          | fuelOut =>
            dsimp only at h
            injection h with h1 h2
            exact absurd h1.symm hne
          | ok ov =>
            rw [ih .top stA (.ok ov) stB hr2 (by simp)]
            cases ov <;> exact h
          | err e =>
            rw [ih .top stA (.err e) stB hr2 (by simp)]
            exact h
          | crash =>
            rw [ih .top stA .crash stB hr2 (by simp)]
            exact h
        · rw [if_neg hd] at h ⊢
          exact h
    | seq endTok acc =>
      rcases he : pscanIW st with ⟨⟨t, l⟩, stA⟩
      rw [parseRun.eq_18, he] at h
      rw [parseRun.eq_18, he]
      dsimp only at h ⊢
      by_cases h1 : t = .EOF
      · rw [if_pos h1] at h ⊢; exact h
      · rw [if_neg h1] at h ⊢
        by_cases h2 : t = .CLOSE_BRACKET ∨ t = .CLOSE_PAREN
        · rw [if_pos h2] at h ⊢; exact h
        · rw [if_neg h2] at h ⊢
          rcases hr2 : parseRun f (.tok t l) stA with ⟨r2, stB⟩
          rw [hr2] at h
          cases r2 with
          | fuelOut =>
            dsimp only at h
            injection h with hh1 hh2
            exact absurd hh1.symm hne
          | ok ov =>
            rw [ih (.tok t l) stA (.ok ov) stB hr2 (by simp)]
            cases ov with
            | some w =>
              dsimp only at h ⊢
              exact ih _ _ _ _ h hne
            | none =>
              dsimp only at h ⊢
              exact ih _ _ _ _ h hne
          | err e =>
            rw [ih (.tok t l) stA (.err e) stB hr2 (by simp)]
            exact h
          | crash =>
            rw [ih (.tok t l) stA .crash stB hr2 (by simp)]
            exact h
    | strct acc =>
      rcases he : pscanIW st with ⟨⟨t, l⟩, stA⟩
      rw [parseRun.eq_19, he] at h
      rw [parseRun.eq_19, he]
      dsimp only at h ⊢
      by_cases h1 : t = .EOF
      · rw [if_pos h1] at h ⊢; exact h
      · rw [if_neg h1] at h ⊢
        by_cases h2 : t = .CLOSE_BRACE
        · rw [if_pos h2] at h ⊢; exact h
        · rw [if_neg h2] at h ⊢
          by_cases h3 : t = .COMMA
          · rw [if_pos h3] at h ⊢
            exact ih _ _ _ _ h hne
          · rw [if_neg h3] at h ⊢
            rcases hr2 : parseRun f (.tok t l) stA with ⟨r2, stB⟩
            rw [hr2] at h
            cases r2 with
            | fuelOut =>
              dsimp only at h
              injection h with hh1 hh2
              exact absurd hh1.symm hne
            | ok ov =>
              rw [ih (.tok t l) stA (.ok ov) stB hr2 (by simp)]
              cases ov with
              | none => dsimp only at h ⊢; exact h
              | some elem =>
                dsimp only at h ⊢
                by_cases h5 : elem.typ ≠ .SymbolType ∧ elem.typ ≠ .StringType
                · rw [if_pos h5] at h ⊢; exact h
                · rw [if_neg h5] at h ⊢
                  rcases hc2 : pscanIW stB with ⟨⟨t2, l2⟩, stC⟩
                  rw [hc2] at h
                  dsimp only at h ⊢
                  by_cases h6 : t2 ≠ .COLON
                  · rw [if_pos h6] at h ⊢; exact h
                  · rw [if_neg h6] at h ⊢
                    rcases hr3 : parseRun f .top stC with ⟨r3, stD⟩
                    rw [hr3] at h
                    cases r3 with
                    | fuelOut =>
                      dsimp only at h
                      injection h with hh1 hh2
                      exact absurd hh1.symm hne
                    | ok ov2 =>
                      rw [ih .top stC (.ok ov2) stD hr3 (by simp)]
                      cases ov2 with
                      | none => dsimp only at h ⊢; exact h
                      | some velem =>
                        dsimp only at h ⊢
                        exact ih _ _ _ _ h hne
                    | err e =>
                      rw [ih .top stC (.err e) stD hr3 (by simp)]
                      exact h
                    | crash =>
                      rw [ih .top stC .crash stD hr3 (by simp)]
                      exact h
            | err e =>
              rw [ih (.tok t l) stA (.err e) stB hr2 (by simp)]
              exact h
            | crash =>
              rw [ih (.tok t l) stA .crash stB hr2 (by simp)]
              exact h

theorem parseRun_mono_le (f g : Nat) (call : PCall) (st : PState) (r : PRes)
    (st2 : PState) (hle : f ≤ g) (h : parseRun f call st = (r, st2))
    (hne : r ≠ .fuelOut) : parseRun g call st = (r, st2) := by
  induction g with
  | zero =>
    have : f = 0 := by omega
    subst this
    exact h
  | succ g ihg =>
    by_cases hfg : f = g + 1
    · subst hfg
      exact h
    · exact parseRun_mono g call st r st2 (ihg (by omega)) hne

/-- C4 counterexample: whitespace, then a comment, then whitespace before
the value — exactly a mix of whitespace and comments — makes the parse
fail, while the bare value parses. -/
theorem c4_counterexample :
    parseString0 " //c\n 5" = .err (.tokenNotHandled .WHITESPACE " ") ∧
    parseString0 "5" = .ok (some (intV 5)) ∧
    parseString0 " //c\n 5" ≠ parseString0 "5" := by
  refine ⟨rfl, rfl, ?_⟩
  intro h
  rw [show parseString0 " //c\n 5" = .err (.tokenNotHandled .WHITESPACE " ")
      from rfl,
    show parseString0 "5" = .ok (some (intV 5)) from rfl] at h
  exact PRes.noConfusion h

/-! ## Parser-state infrastructure for the round-trip theorem -/

theorem goodTok_ne (t : Token) (h : goodTok t = true) :
    t ≠ .WHITESPACE ∧ t ≠ .DOUBLE_COLON ∧ t ≠ .EOF ∧ t ≠ .CLOSE_BRACKET ∧
      t ≠ .CLOSE_PAREN ∧ t ≠ .CLOSE_BRACE ∧ t ≠ .COMMA ∧ t ≠ .COLON := by
  cases t <;> simp_all [goodTok]

theorem pscan_fresh (st : PState) (t : Token) (s : String) (r : List Char)
    (hb : st.bufN = false) (hs : scanCore st.input = ((t, s), r)) :
    pscan st = ((t, s), ⟨r, t, s, false⟩) := by
  simp [pscan, hb, hs]

theorem pscanIW_fresh_tok (st : PState) (t : Token) (s : String)
    (r : List Char) (hb : st.bufN = false)
    (hs : scanCore st.input = ((t, s), r)) (hws : t ≠ .WHITESPACE) :
    pscanIW st = ((t, s), ⟨r, t, s, false⟩) := by
  unfold pscanIW
  rw [pscan_fresh st t s r hb hs]
  simp [hws]

theorem pscanIW_fresh_ws (st : PState) (s : String) (r : List Char)
    (t2 : Token) (s2 : String) (r2 : List Char) (hb : st.bufN = false)
    (hs : scanCore st.input = ((.WHITESPACE, s), r))
    (hs2 : scanCore r = ((t2, s2), r2)) :
    pscanIW st = ((t2, s2), ⟨r2, t2, s2, false⟩) := by
  unfold pscanIW
  rw [pscan_fresh st .WHITESPACE s r hb hs]
  simp only [if_pos rfl]
  exact pscan_fresh ⟨r, .WHITESPACE, s, false⟩ t2 s2 r2 rfl hs2

theorem pscanIW_buffered (st : PState) (hb : st.bufN = true)
    (hws : st.bufTok ≠ .WHITESPACE) :
    pscanIW st = ((st.bufTok, st.bufLit), { st with bufN := false }) := by
  unfold pscanIW pscan
  simp [hb, hws]

theorem Repr_fresh (l : List Char) (t : Token) (s : String) :
    Repr ⟨l, t, s, false⟩ l := by
  rcases hs : scanCore l with ⟨⟨t1, s1⟩, r1⟩
  unfold Repr
  by_cases hws : t1 = .WHITESPACE
  · subst hws
    rcases hs2 : scanCore r1 with ⟨⟨t2, s2⟩, r2⟩
    rw [pscanIW_fresh_ws ⟨l, t, s, false⟩ s1 r1 t2 s2 r2 rfl hs hs2,
        pscanIW_fresh_ws (initPState l) s1 r1 t2 s2 r2 rfl hs hs2]
  · rw [pscanIW_fresh_tok ⟨l, t, s, false⟩ t1 s1 r1 rfl hs hws,
        pscanIW_fresh_tok (initPState l) t1 s1 r1 rfl hs hws]

theorem pscanIW_init_shape (l : List Char) (t : Token) (s : String)
    (stB : PState) (h : pscanIW (initPState l) = ((t, s), stB)) :
    stB = ⟨stB.input, t, s, false⟩ := by
  rcases hs : scanCore l with ⟨⟨t1, s1⟩, r1⟩
  by_cases hws : t1 = .WHITESPACE
  · subst hws
    rcases hs2 : scanCore r1 with ⟨⟨t2, s2⟩, r2⟩
    rw [pscanIW_fresh_ws (initPState l) s1 r1 t2 s2 r2 rfl hs hs2] at h
    injection h with h1 h2
    injection h1 with ht hs3
    subst ht
    subst hs3
    rw [← h2]
  · rw [pscanIW_fresh_tok (initPState l) t1 s1 r1 rfl hs hws] at h
    injection h with h1 h2
    injection h1 with ht hs3
    subst ht
    subst hs3
    rw [← h2]

theorem Repr_punscan (l : List Char) (t : Token) (s : String) (stB : PState)
    (h : pscanIW (initPState l) = ((t, s), stB)) (hws : t ≠ .WHITESPACE) :
    Repr (punscan stB) l := by
  have hshape := pscanIW_init_shape l t s stB h
  unfold Repr
  have hpun : punscan stB = ⟨stB.input, t, s, true⟩ := by
    rw [hshape]
    rfl
  rw [hpun, pscanIW_buffered ⟨stB.input, t, s, true⟩ rfl hws, h]
  exact congrArg _ hshape.symm

theorem pscanIW_init_ws (x : List Char)
    (hhead : ∀ ch, x.head? = some ch →
      isWhitespace ch = false ∧ ch ≠ eofCh)
    (hkind : (scanCore x).1.1 ≠ .WHITESPACE) :
    pscanIW (initPState (' ' :: x)) = pscanIW (initPState x) := by
  rcases hs : scanCore x with ⟨⟨t1, s1⟩, r1⟩
  rw [hs] at hkind
  simp only at hkind
  have hsp : scanCore (' ' :: x) = ((.WHITESPACE, " "), x) :=
    scanCore_ws [' '] x (by simp) (by decide) hhead
  rw [pscanIW_fresh_ws (initPState (' ' :: x)) " " x t1 s1 r1 rfl hsp hs,
      pscanIW_fresh_tok (initPState x) t1 s1 r1 rfl hs hkind]

theorem Repr_ws_cons (st : PState) (x : List Char)
    (hhead : ∀ ch, x.head? = some ch →
      isWhitespace ch = false ∧ ch ≠ eofCh)
    (hkind : (scanCore x).1.1 ≠ .WHITESPACE)
    (h : Repr st (' ' :: x)) : Repr st x := by
  unfold Repr at h ⊢
  rw [h, pscanIW_init_ws x hhead hkind]

theorem sepHead_facts (l : List Char) (hsep : SepHead l) :
    ∀ ch, l.head? = some ch →
      identChar ch = false ∧ ch ∉ decDigits ∧ ch ≠ eofCh ∧ ch ≠ 'x' ∧
        ch ≠ 'b' := by
  intro ch hch
  rcases hsep ch hch with h | h | h | h | h <;> subst h <;> decide

/-! ## Render decompositions and first-token facts -/

theorem seqToString_nil (o d c : Char) :
    (sequenceToString o d c []).data = [o, c] := by
  simp [sequenceToString]

theorem seqBody_cons_comma (v : Value) (vs : List Value) :
    (seqBody ',' (v :: vs)).data =
      ',' :: ' ' :: ((render v).data ++ (seqBody ',' vs).data) := by
  have hne : ¬ ((',' : Char) = eofCh) := by decide
  simp [seqBody, String.data_append, hne]

theorem seqBody_cons_sp (v : Value) (vs : List Value) :
    (seqBody eofCh (v :: vs)).data =
      ' ' :: ((render v).data ++ (seqBody eofCh vs).data) := by
  simp [seqBody, String.data_append]

theorem seqToString_cons (o d c : Char) (v : Value) (vs : List Value) :
    (sequenceToString o d c (v :: vs)).data =
      o :: ((render v).data ++ ((seqBody d vs).data ++ [c])) := by
  cases vs with
  | nil => simp [sequenceToString, seqBody, String.data_append]
  | cons v2 vs2 => simp [sequenceToString, String.data_append]

theorem structToString_nil :
    (structToString []).data = [obraceCh, cbraceCh] := by
  simp [structToString]

theorem structBody_cons (n : String) (v : Value)
    (fs : List (String × Value)) :
    (structBody ((n, v) :: fs)).data =
      ',' :: ' ' :: (n.data ++ ':' :: ' ' :: ((render v).data ++
        (structBody fs).data)) := by
  simp [structBody, String.data_append]

theorem structToString_cons (n : String) (v : Value)
    (fs : List (String × Value)) :
    (structToString ((n, v) :: fs)).data =
      obraceCh :: (n.data ++ ':' :: ' ' :: ((render v).data ++
        ((structBody fs).data ++ [cbraceCh]))) := by
  cases fs with
  | nil => simp [structToString, structBody, String.data_append]
  | cons f2 fs2 => simp [structToString, String.data_append]

theorem symbolToString_data (tx : String) :
    (symbolToString tx).data = squote :: (tx.data ++ [squote]) := by
  simp [symbolToString, String.data_append]

theorem head_facts_of_cons (x : List Char) (c : Char) (body : List Char)
    (hx : x = c :: body) (hc : isWhitespace c = false ∧ c ≠ eofCh) :
    x ≠ [] ∧ ∀ ch, x.head? = some ch →
      isWhitespace ch = false ∧ ch ≠ eofCh := by
  subst hx
  refine ⟨by simp, ?_⟩
  intro ch hch
  simp only [List.head?_cons, Option.some.injEq] at hch
  subst hch
  exact hc

theorem render_head_char (v : Value) (hrt : RTok v = true) :
    (render v).data ≠ [] ∧ ∀ ch, (render v).data.head? = some ch →
      isWhitespace ch = false ∧ ch ≠ eofCh := by
  rcases v with ⟨t, anns, i, f, tx, sq, st⟩
  cases t
  case NullType =>
    exact head_facts_of_cons _ 'n' ['u', 'l', 'l'] (by simp [render]) (by decide)
  case BoolType =>
    by_cases hi : i = 0
    · exact head_facts_of_cons _ 'f' ['a', 'l', 's', 'e']
        (by simp [render, hi]) (by decide)
    · exact head_facts_of_cons _ 't' ['r', 'u', 'e']
        (by simp [render, hi]) (by decide)
  case IntType =>
    simp only [RTok, Bool.and_eq_true, decide_eq_true_eq] at hrt
    have h0 : 0 ≤ i := hrt.1.1.1.1.1.2
    have hr : (render (Value.mk .IntType anns i f tx sq st)).data =
        (natDec i.toNat).data := by
      simp [render, intDec_nonneg i h0]
    rcases hds : (natDec i.toNat).data with _ | ⟨c, rest⟩
    · exact absurd hds (natDec_ne_nil i.toNat)
    · have hc : ∃ d, d < 10 ∧ c = digitChar d := by
        refine natDecCore_digits (i.toNat + 1) i.toNat [] (by simp) c ?_
        show c ∈ (natDec i.toNat).data
        rw [hds]
        exact List.mem_cons_self c rest
      obtain ⟨d, hd10, hcd⟩ := hc
      subst hcd
      have hf := digitChar_class d hd10
      exact head_facts_of_cons _ (digitChar d) rest (by rw [hr, hds])
        ⟨hf.2.2.1, hf.2.2.2.2.2.1⟩
  case FloatType => simp [RTok] at hrt
  case StringType =>
    have hr : (render (Value.mk .StringType anns i f tx sq st)).data =
        dquote :: (qbody tx.data ++ [dquote]) := by
      simp [render, quoteGo, qbody]
    exact head_facts_of_cons _ dquote _ hr (by decide)
  case SymbolType =>
    have hr : (render (Value.mk .SymbolType anns i f tx sq st)).data =
        squote :: (tx.data ++ [squote]) := by
      simp [render, symbolToString_data]
    exact head_facts_of_cons _ squote _ hr (by decide)
  case ListType =>
    rcases sq with _ | ⟨v1, vs⟩
    · have hr : (render (Value.mk .ListType anns i f tx [] st)).data =
          ['[', ']'] := by
        simp [render, seqToString_nil]
      exact head_facts_of_cons _ '[' [']'] hr (by decide)
    · have hr : (render (Value.mk .ListType anns i f tx (v1 :: vs) st)).data =
          '[' :: ((render v1).data ++ ((seqBody ',' vs).data ++ [']'])) := by
        simp [render, seqToString_cons]
      exact head_facts_of_cons _ '[' _ hr (by decide)
  case SexpType =>
    rcases sq with _ | ⟨v1, vs⟩
    · have hr : (render (Value.mk .SexpType anns i f tx [] st)).data =
          ['(', ')'] := by
        simp [render, seqToString_nil]
      exact head_facts_of_cons _ '(' [')'] hr (by decide)
    · have hr : (render (Value.mk .SexpType anns i f tx (v1 :: vs) st)).data =
          '(' :: ((render v1).data ++ ((seqBody eofCh vs).data ++ [')'])) := by
        simp [render, seqToString_cons]
      exact head_facts_of_cons _ '(' _ hr (by decide)
  case StructType =>
    simp only [RTok, Bool.and_eq_true] at hrt
    have hanns : annsOk anns = true := hrt.1.1.1.1.1
    rcases anns with _ | ⟨a, anns2⟩
    · have hr : (render (Value.mk .StructType [] i f tx sq st)).data =
          (structToString st).data := by
        simp [render, annotate, Value.annotations]
      rcases st with _ | ⟨⟨n, v1⟩, fs⟩
      · exact head_facts_of_cons _ obraceCh _
          (by rw [hr, structToString_nil]) (by decide)
      · exact head_facts_of_cons _ obraceCh _
          (by rw [hr, structToString_cons]) (by decide)
    · rcases anns2 with _ | ⟨a2, anns3⟩
      · have hid : identOk a = true := hanns
        have hr : (render (Value.mk .StructType [a] i f tx sq st)).data =
            a.data ++ (':' :: ':' :: (structToString st).data) := by
          have hcc : ("::" : String).data = [':', ':'] := rfl
          simp [render, annotate, Value.annotations, String.join,
            String.data_append, hcc]
        rcases hna : a.data with _ | ⟨c0, cs⟩
        · rw [identOk, hna] at hid
          exact absurd hid (by decide)
        · rw [identOk, hna] at hid
          simp only [Bool.and_eq_true] at hid
          have hl : isLetter c0 = true := hid.1
          refine head_facts_of_cons _ c0 (cs ++ ':' :: ':' ::
            (structToString st).data) ?_ ?_
          · rw [hr, hna, List.cons_append]
          · refine ⟨isLetter_not_ws c0 hl, ?_⟩
            intro he
            rw [he] at hl
            exact absurd hl (by decide)
      · simp [annsOk] at hanns

theorem render_head_append (v : Value) (l : List Char) (hrt : RTok v = true) :
    ∀ ch, ((render v).data ++ l).head? = some ch →
      isWhitespace ch = false ∧ ch ≠ eofCh := by
  obtain ⟨hne, hh⟩ := render_head_char v hrt
  intro ch hch
  rcases hx : (render v).data with _ | ⟨c, body⟩
  · exact absurd hx hne
  · rw [hx, List.cons_append, List.head?_cons] at hch
    injection hch with hch
    subst hch
    exact hh c (by rw [hx]; rfl)

theorem render_scan_good (v : Value) (l : List Char) (hrt : RTok v = true)
    (hsep : SepHead l) :
    goodTok (scanCore ((render v).data ++ l)).1.1 = true := by
  have hfollow : ∀ ch, l.head? = some ch →
      identChar ch = false ∧ ch ≠ eofCh := by
    intro ch hch
    have h := sepHead_facts l hsep ch hch
    exact ⟨h.1, h.2.2.1⟩
  have hnum : ∀ ch, l.head? = some ch →
      ch ∉ decDigits ∧ ch ≠ eofCh ∧ ch ≠ 'x' ∧ ch ≠ 'b' := by
    intro ch hch
    have h := sepHead_facts l hsep ch hch
    exact ⟨h.2.1, h.2.2.1, h.2.2.2.1, h.2.2.2.2⟩
  rcases v with ⟨t, anns, i, f, tx, sq, st⟩
  cases t
  case NullType =>
    have hr : (render (Value.mk .NullType anns i f tx sq st)).data =
        "null".data := by simp [render]
    rw [hr, scanCore_ident "null" l (by decide) hfollow]
    rfl
  case BoolType =>
    by_cases hi : i = 0
    · have hr : (render (Value.mk .BoolType anns i f tx sq st)).data =
          "false".data := by simp [render, hi]
      rw [hr, scanCore_ident "false" l (by decide) hfollow]
      rfl
    · have hr : (render (Value.mk .BoolType anns i f tx sq st)).data =
          "true".data := by simp [render, hi]
      rw [hr, scanCore_ident "true" l (by decide) hfollow]
      rfl
  case IntType =>
    simp only [RTok, Bool.and_eq_true, decide_eq_true_eq] at hrt
    have h0 : 0 ≤ i := hrt.1.1.1.1.1.2
    have hr : (render (Value.mk .IntType anns i f tx sq st)).data =
        (intDec i).data := by simp [render]
    rw [hr, scanCore_intDec i l h0 hnum]
    rfl
  case FloatType => simp [RTok] at hrt
  case StringType =>
    simp only [RTok, Bool.and_eq_true] at hrt
    have hok : strOk tx = true := hrt.1.1.1.1.2
    have hr : (render (Value.mk .StringType anns i f tx sq st)).data =
        (quoteGo tx).data := by simp [render]
    rw [hr, scanCore_stringTok tx l hok]
    rfl
  case SymbolType =>
    simp only [RTok, Bool.and_eq_true] at hrt
    have hok : symOk tx = true := hrt.1.1.1.1.2
    simp only [symOk, Bool.and_eq_true] at hok
    have hne : tx.data ≠ [] := by
      have h1 := hok.1.1
      simp only [Bool.not_eq_true'] at h1
      simpa [List.isEmpty_iff] using h1
    have hr : (render (Value.mk .SymbolType anns i f tx sq st)).data ++ l =
        squote :: (tx.data ++ squote :: l) := by
      have h1 : (render (Value.mk .SymbolType anns i f tx sq st)).data =
          squote :: (tx.data ++ [squote]) := by
        simp [render, symbolToString_data]
      rw [h1]
      simp [List.append_assoc]
    rw [hr, scanCore_symbolTok tx l hne hok.1.2]
    rfl
  case ListType =>
    rcases sq with _ | ⟨v1, vs⟩
    · have hr : (render (Value.mk .ListType anns i f tx [] st)).data =
          ['[', ']'] := by simp [render, seqToString_nil]
      rw [hr]
      rfl
    · have hr : (render (Value.mk .ListType anns i f tx (v1 :: vs) st)).data =
          '[' :: ((render v1).data ++ ((seqBody ',' vs).data ++ [']'])) := by
        simp [render, seqToString_cons]
      rw [hr, List.cons_append, scanCore_obracket]
      rfl
  case SexpType =>
    rcases sq with _ | ⟨v1, vs⟩
    · have hr : (render (Value.mk .SexpType anns i f tx [] st)).data =
          ['(', ')'] := by simp [render, seqToString_nil]
      rw [hr]
      rfl
    · have hr : (render (Value.mk .SexpType anns i f tx (v1 :: vs) st)).data =
          '(' :: ((render v1).data ++ ((seqBody eofCh vs).data ++ [')'])) := by
        simp [render, seqToString_cons]
      rw [hr, List.cons_append, scanCore_oparen]
      rfl
  case StructType =>
    simp only [RTok, Bool.and_eq_true] at hrt
    have hanns : annsOk anns = true := hrt.1.1.1.1.1
    rcases anns with _ | ⟨a, anns2⟩
    · have hr : (render (Value.mk .StructType [] i f tx sq st)).data =
          (structToString st).data := by
        simp [render, annotate, Value.annotations]
      rcases st with _ | ⟨⟨n, v1⟩, fs⟩
      · rw [hr, structToString_nil]
        rfl
      · rw [hr, structToString_cons, List.cons_append, scanCore_obrace]
        rfl
    · rcases anns2 with _ | ⟨a2, anns3⟩
      · have hid : identOk a = true := hanns
        have hr : (render (Value.mk .StructType [a] i f tx sq st)).data =
            a.data ++ (':' :: ':' :: (structToString st).data) := by
          have hcc : ("::" : String).data = [':', ':'] := rfl
          simp [render, annotate, Value.annotations, String.join,
            String.data_append, hcc]
        have hstream : (render (Value.mk .StructType [a] i f tx sq st)).data
            ++ l = a.data ++ (':' :: ':' :: ((structToString st).data ++ l))
            := by
          rw [hr]
          simp [List.append_assoc]
        rw [hstream, scanCore_ident a (':' :: ':' ::
          ((structToString st).data ++ l)) hid
          (fun ch hch => by
            simp only [List.head?_cons, Option.some.injEq] at hch
            subst hch
            decide)]
        rfl
      · simp [annsOk] at hanns

theorem pscanIW_init_render (v : Value) (l : List Char) (hrt : RTok v = true)
    (hsep : SepHead l) :
    ∃ t s r, scanCore ((render v).data ++ l) = ((t, s), r) ∧
      goodTok t = true ∧
      pscanIW (initPState ((render v).data ++ l)) =
        ((t, s), ⟨r, t, s, false⟩) := by
  rcases hs : scanCore ((render v).data ++ l) with ⟨⟨t, s⟩, r⟩
  have hg : goodTok t = true := by
    have hgg := render_scan_good v l hrt hsep
    rw [hs] at hgg
    exact hgg
  exact ⟨t, s, r, rfl, hg,
    pscanIW_fresh_tok _ t s r rfl hs (goodTok_ne t hg).1⟩

theorem streamOK_render (v : Value) (l : List Char) (hrt : RTok v = true)
    (hsep : SepHead l) : StreamOK ((render v).data ++ l) := by
  obtain ⟨t, s, r, hs, hg, hiw⟩ := pscanIW_init_render v l hrt hsep
  unfold StreamOK
  rw [hiw]
  exact ⟨(goodTok_ne t hg).1, (goodTok_ne t hg).2.1⟩

theorem pscanIW_init_sp_render (v : Value) (l : List Char)
    (hrt : RTok v = true) (hsep : SepHead l) :
    pscanIW (initPState (' ' :: ((render v).data ++ l))) =
      pscanIW (initPState ((render v).data ++ l)) := by
  apply pscanIW_init_ws
  · exact render_head_append v l hrt
  · rcases pscanIW_init_render v l hrt hsep with ⟨t, s, r, hs, hg, _⟩
    rw [hs]
    exact (goodTok_ne t hg).1

theorem streamOK_sp_render (v : Value) (l : List Char) (hrt : RTok v = true)
    (hsep : SepHead l) : StreamOK (' ' :: ((render v).data ++ l)) := by
  have h := streamOK_render v l hrt hsep
  unfold StreamOK at h ⊢
  rw [pscanIW_init_sp_render v l hrt hsep]
  exact h

theorem sepHead_cons (c : Char) (x : List Char)
    (h : c = ',' ∨ c = ' ' ∨ c = ']' ∨ c = ')' ∨ c = cbraceCh) :
    SepHead (c :: x) := by
  intro ch hch
  simp only [List.head?_cons, Option.some.injEq] at hch
  subst hch
  exact h

theorem sepHead_nil : SepHead [] := by
  intro ch hch
  simp at hch

theorem streamOK_of_scan (l : List Char) (t : Token) (s : String)
    (r : List Char) (hs : scanCore l = ((t, s), r))
    (h1 : t ≠ .WHITESPACE) (h2 : t ≠ .DOUBLE_COLON) : StreamOK l := by
  unfold StreamOK
  rw [pscanIW_fresh_tok (initPState l) t s r rfl hs h1]
  exact ⟨h1, h2⟩

theorem streamOK_nil : StreamOK [] :=
  streamOK_of_scan [] .EOF "" [] rfl (by decide) (by decide)

theorem streamOK_comma (x : List Char) : StreamOK (',' :: x) :=
  streamOK_of_scan _ _ _ _ (scanCore_comma x) (by decide) (by decide)

theorem streamOK_cbracket (x : List Char) : StreamOK (']' :: x) :=
  streamOK_of_scan _ _ _ _ (scanCore_cbracket x) (by decide) (by decide)

theorem streamOK_cparen (x : List Char) : StreamOK (')' :: x) :=
  streamOK_of_scan _ _ _ _ (scanCore_cparen x) (by decide) (by decide)

theorem streamOK_cbrace (x : List Char) : StreamOK (cbraceCh :: x) :=
  streamOK_of_scan _ _ _ _ (scanCore_cbrace x) (by decide) (by decide)

theorem seqBody_nil_data (d : Char) : (seqBody d []).data = [] := rfl

theorem structBody_nil_data : (structBody []).data = [] := rfl

theorem sepHead_listTail (vs : List Value) (l : List Char) :
    SepHead ((seqBody ',' vs).data ++ (']' :: l)) := by
  cases vs with
  | nil =>
    rw [seqBody_nil_data, List.nil_append]
    exact sepHead_cons ']' l (Or.inr (Or.inr (Or.inl rfl)))
  | cons v2 vs2 =>
    rw [seqBody_cons_comma, List.cons_append]
    exact sepHead_cons ',' _ (Or.inl rfl)

theorem sepHead_sexpTail (vs : List Value) (l : List Char) :
    SepHead ((seqBody eofCh vs).data ++ (')' :: l)) := by
  cases vs with
  | nil =>
    rw [seqBody_nil_data, List.nil_append]
    exact sepHead_cons ')' l (Or.inr (Or.inr (Or.inr (Or.inl rfl))))
  | cons v2 vs2 =>
    rw [seqBody_cons_sp, List.cons_append]
    exact sepHead_cons ' ' _ (Or.inr (Or.inl rfl))

theorem sepHead_structTail (fs : List (String × Value)) (l : List Char) :
    SepHead ((structBody fs).data ++ (cbraceCh :: l)) := by
  cases fs with
  | nil =>
    rw [structBody_nil_data, List.nil_append]
    exact sepHead_cons cbraceCh l (Or.inr (Or.inr (Or.inr (Or.inr rfl))))
  | cons f2 fs2 =>
    rcases f2 with ⟨n, v2⟩
    rw [structBody_cons, List.cons_append]
    exact sepHead_cons ',' _ (Or.inl rfl)

theorem seqLoop_list (vs : List Value) :
    ∀ (v : Value) (acc : List Value) (st : PState) (l : List Char),
      RTok v = true → ParsesTop v →
      (∀ e ∈ vs, RTok e = true ∧ ParsesTop e) →
      Repr st ((render v).data ++ ((seqBody ',' vs).data ++ (']' :: l))) →
      SepHead l → StreamOK l →
      ∃ f stF, parseRun (f + 1) (.seq .CLOSE_BRACKET acc) st =
          (.ok (some (listV (acc ++ v :: vs))), stF) ∧ Repr stF l := by
  induction vs with
  | nil =>
    intro v acc st l hrtv hpv _ hRepr hsep hok
    rw [seqBody_nil_data, List.nil_append] at hRepr
    have hsep1 : SepHead (']' :: l) :=
      sepHead_cons ']' l (Or.inr (Or.inr (Or.inl rfl)))
    obtain ⟨tv, sv, rv, hsv, hgv, hiv⟩ :=
      pscanIW_init_render v (']' :: l) hrtv hsep1
    have hscan : pscanIW st = ((tv, sv), ⟨rv, tv, sv, false⟩) :=
      hRepr.trans hiv
    obtain ⟨f1, stF1, hP, hRepr1⟩ :=
      hpv st (']' :: l) hRepr hsep1 (streamOK_cbracket l)
    rw [parseRun.eq_2, hscan] at hP
    dsimp only at hP
    have hscan2 : pscanIW stF1 =
        ((.CLOSE_BRACKET, "]"), ⟨l, .CLOSE_BRACKET, "]", false⟩) :=
      hRepr1.trans (pscanIW_fresh_tok (initPState (']' :: l)) .CLOSE_BRACKET
        "]" l rfl (scanCore_cbracket l) (by decide))
    refine ⟨f1 + 1, ⟨l, .CLOSE_BRACKET, "]", false⟩, ?_, Repr_fresh l _ _⟩
    show parseRun ((f1 + 1) + 1) (.seq .CLOSE_BRACKET acc) st = _
    rw [parseRun.eq_18, hscan]
    dsimp only
    rw [if_neg (goodTok_ne tv hgv).2.2.1,
      if_neg (not_or.mpr ⟨(goodTok_ne tv hgv).2.2.2.1,
        (goodTok_ne tv hgv).2.2.2.2.1⟩)]
    have hPF : parseRun (f1 + 1) (.tok tv sv) ⟨rv, tv, sv, false⟩ =
        (.ok (some v), stF1) :=
      parseRun_mono_le f1 (f1 + 1) _ _ _ _ (by omega) hP
        (fun hc => PRes.noConfusion hc)
    rw [hPF]
    dsimp only
    rw [parseRun.eq_18, hscan2]
    dsimp only
    rw [if_neg (by decide), if_pos (Or.inl rfl), if_neg (by simp),
      if_neg (by decide)]
  | cons e2 vs2 ih =>
    intro v acc st l hrtv hpv helems hRepr hsep hok
    rw [seqBody_cons_comma] at hRepr
    simp only [List.cons_append, List.append_assoc] at hRepr
    obtain ⟨hrt2, hp2⟩ := helems e2 (List.mem_cons_self e2 vs2)
    have hsep2 : SepHead ((seqBody ',' vs2).data ++ (']' :: l)) :=
      sepHead_listTail vs2 l
    have hsep1 : SepHead (',' :: ' ' :: ((render e2).data ++
        ((seqBody ',' vs2).data ++ (']' :: l)))) :=
      sepHead_cons ',' _ (Or.inl rfl)
    obtain ⟨f1, stF1, hP, hRepr1⟩ :=
      hpv st (',' :: ' ' :: ((render e2).data ++
        ((seqBody ',' vs2).data ++ (']' :: l)))) hRepr hsep1
        (streamOK_comma _)
    obtain ⟨tv, sv, rv, hsv, hgv, hiv⟩ :=
      pscanIW_init_render v (',' :: ' ' :: ((render e2).data ++
        ((seqBody ',' vs2).data ++ (']' :: l)))) hrtv hsep1
    have hscan : pscanIW st = ((tv, sv), ⟨rv, tv, sv, false⟩) :=
      hRepr.trans hiv
    rw [parseRun.eq_2, hscan] at hP
    dsimp only at hP
    have hscan2 : pscanIW stF1 = ((.COMMA, ","),
        ⟨' ' :: ((render e2).data ++ ((seqBody ',' vs2).data ++ (']' :: l))),
          .COMMA, ",", false⟩) :=
      hRepr1.trans (pscanIW_fresh_tok _ .COMMA ","
        (' ' :: ((render e2).data ++ ((seqBody ',' vs2).data ++ (']' :: l))))
        rfl (scanCore_comma _) (by decide))
    have hReprA2 : Repr ⟨' ' :: ((render e2).data ++
        ((seqBody ',' vs2).data ++ (']' :: l))), .COMMA, ",", false⟩
        ((render e2).data ++ ((seqBody ',' vs2).data ++ (']' :: l))) := by
      refine Repr_ws_cons _ _ (render_head_append e2 _ hrt2) ?_
        (Repr_fresh _ _ _)
      have hg2 := render_scan_good e2 _ hrt2 hsep2
      exact (goodTok_ne _ hg2).1
    obtain ⟨f2, stF, hP2, hReprF⟩ :=
      ih e2 (acc ++ [v]) _ l hrt2 hp2
        (fun e he => helems e (List.mem_cons_of_mem _ he)) hReprA2 hsep hok
    refine ⟨f1 + f2 + 2, stF, ?_, hReprF⟩
    show parseRun ((f1 + f2 + 2) + 1) (.seq .CLOSE_BRACKET acc) st = _
    rw [parseRun.eq_18, hscan]
    dsimp only
    rw [if_neg (goodTok_ne tv hgv).2.2.1,
      if_neg (not_or.mpr ⟨(goodTok_ne tv hgv).2.2.2.1,
        (goodTok_ne tv hgv).2.2.2.2.1⟩)]
    have hPF : parseRun (f1 + f2 + 2) (.tok tv sv) ⟨rv, tv, sv, false⟩ =
        (.ok (some v), stF1) :=
      parseRun_mono_le f1 (f1 + f2 + 2) _ _ _ _ (by omega) hP
        (fun hc => PRes.noConfusion hc)
    rw [hPF]
    dsimp only
    show parseRun ((f1 + f2 + 1) + 1) (.seq .CLOSE_BRACKET (acc ++ [v]))
      stF1 = _
    rw [parseRun.eq_18, hscan2]
    dsimp only
    rw [if_neg (by decide), if_neg (by decide)]
    have hComma : parseRun (f1 + f2 + 1) (.tok .COMMA ",")
        ⟨' ' :: ((render e2).data ++ ((seqBody ',' vs2).data ++ (']' :: l))),
          .COMMA, ",", false⟩ =
        (.ok none, ⟨' ' :: ((render e2).data ++
          ((seqBody ',' vs2).data ++ (']' :: l))), .COMMA, ",", false⟩) := by
      show parseRun ((f1 + f2) + 1) (.tok .COMMA ",") _ = _
      rw [parseRun.eq_13]
    rw [hComma]
    dsimp only
    have hP2F : parseRun (f1 + f2 + 1) (.seq .CLOSE_BRACKET (acc ++ [v]))
        ⟨' ' :: ((render e2).data ++ ((seqBody ',' vs2).data ++ (']' :: l))),
          .COMMA, ",", false⟩ =
        (.ok (some (listV ((acc ++ [v]) ++ e2 :: vs2))), stF) :=
      parseRun_mono_le (f2 + 1) (f1 + f2 + 1) _ _ _ _ (by omega) hP2
        (fun hc => PRes.noConfusion hc)
    rw [hP2F]
    simp [List.append_assoc]

theorem seqLoop_sexp (vs : List Value) :
    ∀ (v : Value) (acc : List Value) (st : PState) (l : List Char),
      RTok v = true → ParsesTop v →
      (∀ e ∈ vs, RTok e = true ∧ ParsesTop e) →
      Repr st ((render v).data ++ ((seqBody eofCh vs).data ++ (')' :: l))) →
      SepHead l → StreamOK l →
      ∃ f stF, parseRun (f + 1) (.seq .CLOSE_PAREN acc) st =
          (.ok (some (sexpV (acc ++ v :: vs))), stF) ∧ Repr stF l := by
  induction vs with
  | nil =>
    intro v acc st l hrtv hpv _ hRepr hsep hok
    rw [seqBody_nil_data, List.nil_append] at hRepr
    have hsep1 : SepHead (')' :: l) :=
      sepHead_cons ')' l (Or.inr (Or.inr (Or.inr (Or.inl rfl))))
    obtain ⟨tv, sv, rv, hsv, hgv, hiv⟩ :=
      pscanIW_init_render v (')' :: l) hrtv hsep1
    have hscan : pscanIW st = ((tv, sv), ⟨rv, tv, sv, false⟩) :=
      hRepr.trans hiv
    obtain ⟨f1, stF1, hP, hRepr1⟩ :=
      hpv st (')' :: l) hRepr hsep1 (streamOK_cparen l)
    rw [parseRun.eq_2, hscan] at hP
    dsimp only at hP
    have hscan2 : pscanIW stF1 =
        ((.CLOSE_PAREN, ")"), ⟨l, .CLOSE_PAREN, ")", false⟩) :=
      hRepr1.trans (pscanIW_fresh_tok (initPState (')' :: l)) .CLOSE_PAREN
        ")" l rfl (scanCore_cparen l) (by decide))
    refine ⟨f1 + 1, ⟨l, .CLOSE_PAREN, ")", false⟩, ?_, Repr_fresh l _ _⟩
    show parseRun ((f1 + 1) + 1) (.seq .CLOSE_PAREN acc) st = _
    rw [parseRun.eq_18, hscan]
    dsimp only
    rw [if_neg (goodTok_ne tv hgv).2.2.1,
      if_neg (not_or.mpr ⟨(goodTok_ne tv hgv).2.2.2.1,
        (goodTok_ne tv hgv).2.2.2.2.1⟩)]
    have hPF : parseRun (f1 + 1) (.tok tv sv) ⟨rv, tv, sv, false⟩ =
        (.ok (some v), stF1) :=
      parseRun_mono_le f1 (f1 + 1) _ _ _ _ (by omega) hP
        (fun hc => PRes.noConfusion hc)
    rw [hPF]
    dsimp only
    rw [parseRun.eq_18, hscan2]
    dsimp only
    rw [if_neg (by decide), if_pos (Or.inr rfl), if_neg (by simp),
      if_pos rfl]
  | cons e2 vs2 ih =>
    intro v acc st l hrtv hpv helems hRepr hsep hok
    rw [seqBody_cons_sp] at hRepr
    simp only [List.cons_append, List.append_assoc] at hRepr
    obtain ⟨hrt2, hp2⟩ := helems e2 (List.mem_cons_self e2 vs2)
    have hsep2 : SepHead ((seqBody eofCh vs2).data ++ (')' :: l)) :=
      sepHead_sexpTail vs2 l
    have hsep1 : SepHead (' ' :: ((render e2).data ++
        ((seqBody eofCh vs2).data ++ (')' :: l)))) :=
      sepHead_cons ' ' _ (Or.inr (Or.inl rfl))
    obtain ⟨f1, stF1, hP, hRepr1⟩ :=
      hpv st (' ' :: ((render e2).data ++
        ((seqBody eofCh vs2).data ++ (')' :: l)))) hRepr hsep1
        (streamOK_sp_render e2 _ hrt2 hsep2)
    obtain ⟨tv, sv, rv, hsv, hgv, hiv⟩ :=
      pscanIW_init_render v (' ' :: ((render e2).data ++
        ((seqBody eofCh vs2).data ++ (')' :: l)))) hrtv hsep1
    have hscan : pscanIW st = ((tv, sv), ⟨rv, tv, sv, false⟩) :=
      hRepr.trans hiv
    rw [parseRun.eq_2, hscan] at hP
    dsimp only at hP
    have hRepr2 : Repr stF1 ((render e2).data ++
        ((seqBody eofCh vs2).data ++ (')' :: l))) :=
      hRepr1.trans (pscanIW_init_sp_render e2 _ hrt2 hsep2)
    obtain ⟨f2, stF, hP2, hReprF⟩ :=
      ih e2 (acc ++ [v]) stF1 l hrt2 hp2
        (fun e he => helems e (List.mem_cons_of_mem _ he)) hRepr2 hsep hok
    refine ⟨f1 + f2 + 1, stF, ?_, hReprF⟩
    show parseRun ((f1 + f2 + 1) + 1) (.seq .CLOSE_PAREN acc) st = _
    rw [parseRun.eq_18, hscan]
    dsimp only
    rw [if_neg (goodTok_ne tv hgv).2.2.1,
      if_neg (not_or.mpr ⟨(goodTok_ne tv hgv).2.2.2.1,
        (goodTok_ne tv hgv).2.2.2.2.1⟩)]
    have hPF : parseRun (f1 + f2 + 1) (.tok tv sv) ⟨rv, tv, sv, false⟩ =
        (.ok (some v), stF1) :=
      parseRun_mono_le f1 (f1 + f2 + 1) _ _ _ _ (by omega) hP
        (fun hc => PRes.noConfusion hc)
    rw [hPF]
    dsimp only
    have hP2F : parseRun (f1 + f2 + 1) (.seq .CLOSE_PAREN (acc ++ [v]))
        stF1 = (.ok (some (sexpV ((acc ++ [v]) ++ e2 :: vs2))), stF) :=
      parseRun_mono_le (f2 + 1) (f1 + f2 + 1) _ _ _ _ (by omega) hP2
        (fun hc => PRes.noConfusion hc)
    rw [hP2F]
    simp [List.append_assoc]

theorem identOk_ne_nil (n : String) (hid : identOk n = true) :
    n.data ≠ [] := by
  intro he
  rw [identOk, he] at hid
  exact absurd hid (by decide)

theorem ident_head_append (n : String) (z : List Char)
    (hid : identOk n = true) :
    ∀ ch, (n.data ++ z).head? = some ch →
      isWhitespace ch = false ∧ ch ≠ eofCh := by
  intro ch hch
  rcases hn : n.data with _ | ⟨c0, cs⟩
  · exact absurd hn (identOk_ne_nil n hid)
  · rw [identOk, hn] at hid
    simp only [Bool.and_eq_true] at hid
    have hl : isLetter c0 = true := hid.1
    rw [hn, List.cons_append, List.head?_cons] at hch
    injection hch with hch
    subst hch
    refine ⟨isLetter_not_ws c0 hl, ?_⟩
    intro he
    rw [he] at hl
    exact absurd hl (by decide)

theorem streamOK_structTail (fs : List (String × Value)) (l : List Char) :
    StreamOK ((structBody fs).data ++ (cbraceCh :: l)) := by
  cases fs with
  | nil =>
    rw [structBody_nil_data, List.nil_append]
    exact streamOK_cbrace l
  | cons f2 fs2 =>
    rcases f2 with ⟨n, v2⟩
    rw [structBody_cons, List.cons_append]
    exact streamOK_comma _

theorem notKeyword_facts (n : String) (hnk : n ∉ keywords) :
    n ≠ "true" ∧ n ≠ "false" ∧ n ≠ "null" := by
  refine ⟨?_, ?_, ?_⟩ <;>
    (intro he; subst he; exact hnk (by decide))

theorem structLoop (fs : List (String × Value)) :
    ∀ (n : String) (v : Value) (acc : List (String × Value)) (st : PState)
      (l : List Char),
      fieldNameOk n = true → RTok v = true → ParsesTop v →
      (∀ p ∈ fs, fieldNameOk p.1 = true ∧ RTok p.2 = true ∧ ParsesTop p.2) →
      Repr st (n.data ++ (':' :: ' ' :: ((render v).data ++
        ((structBody fs).data ++ (cbraceCh :: l))))) →
      SepHead l → StreamOK l →
      ∃ f stF, parseRun (f + 1) (.strct acc) st =
          (.ok (some (structV (acc ++ (n, v) :: fs))), stF) ∧ Repr stF l := by
  induction fs with
  | nil =>
    intro n v acc st l hfn hrtv hpv _ hRepr hsep hok
    rw [structBody_nil_data, List.nil_append] at hRepr
    simp only [fieldNameOk, Bool.and_eq_true, decide_eq_true_eq] at hfn
    obtain ⟨hid, hnk⟩ := hfn
    obtain ⟨hne1, hne2, hne3⟩ := notKeyword_facts n hnk
    have hsepT : SepHead (cbraceCh :: l) :=
      sepHead_cons cbraceCh l (Or.inr (Or.inr (Or.inr (Or.inr rfl))))
    have hscan : pscanIW st = ((.SYMBOL, n),
        ⟨':' :: ' ' :: ((render v).data ++ (cbraceCh :: l)),
          .SYMBOL, n, false⟩) := by
      refine hRepr.trans (pscanIW_fresh_tok _ .SYMBOL n _ rfl ?_ (by decide))
      exact scanCore_ident n _ hid (fun ch hch => by
        simp only [List.head?_cons, Option.some.injEq] at hch
        subst hch
        decide)
    have hSym : ∀ k : Nat, parseRun (k + 1) (.tok .SYMBOL n)
        ⟨':' :: ' ' :: ((render v).data ++ (cbraceCh :: l)),
          .SYMBOL, n, false⟩ =
        (.ok (some (symbolV n)),
          ⟨' ' :: ((render v).data ++ (cbraceCh :: l)),
            .COLON, ":", true⟩) := by
      intro k
      rw [parseRun.eq_5,
        pscanIW_fresh_tok _ .COLON ":" _ rfl (scanCore_colon_space _)
          (by decide)]
      dsimp only
      rw [if_neg (by decide), if_neg hne1, if_neg hne2, if_neg hne3]
      rfl
    have hReprV : Repr ⟨' ' :: ((render v).data ++ (cbraceCh :: l)),
        .COLON, ":", false⟩ ((render v).data ++ (cbraceCh :: l)) := by
      refine Repr_ws_cons _ _ (render_head_append v _ hrtv) ?_
        (Repr_fresh _ _ _)
      have hg := render_scan_good v _ hrtv hsepT
      exact (goodTok_ne _ hg).1
    obtain ⟨f2, stF2, hPv, hRepr2⟩ :=
      hpv ⟨' ' :: ((render v).data ++ (cbraceCh :: l)), .COLON, ":", false⟩
        (cbraceCh :: l) hReprV hsepT (streamOK_cbrace l)
    have hscanC : pscanIW stF2 = ((.CLOSE_BRACE, String.mk [cbraceCh]),
        ⟨l, .CLOSE_BRACE, String.mk [cbraceCh], false⟩) :=
      hRepr2.trans (pscanIW_fresh_tok (initPState (cbraceCh :: l))
        .CLOSE_BRACE (String.mk [cbraceCh]) l rfl (scanCore_cbrace l)
        (by decide))
    refine ⟨f2 + 2, ⟨l, .CLOSE_BRACE, String.mk [cbraceCh], false⟩, ?_,
      Repr_fresh l _ _⟩
    show parseRun ((f2 + 2) + 1) (.strct acc) st = _
    rw [parseRun.eq_19, hscan]
    dsimp only
    rw [if_neg (by decide), if_neg (by decide), if_neg (by decide)]
    rw [show (f2 + 2 : Nat) = (f2 + 1) + 1 from rfl, hSym (f2 + 1)]
    dsimp only
    rw [if_neg (fun hcon => hcon.1 rfl)]
    rw [pscanIW_buffered ⟨' ' :: ((render v).data ++ (cbraceCh :: l)),
      .COLON, ":", true⟩ rfl (fun h => Token.noConfusion h)]
    dsimp only
    rw [if_neg (by simp)]
    have hPvF : parseRun ((f2 + 1) + 1) .top
        ⟨' ' :: ((render v).data ++ (cbraceCh :: l)), .COLON, ":", false⟩ =
        (.ok (some v), stF2) :=
      parseRun_mono_le (f2 + 1) ((f2 + 1) + 1) _ _ _ _ (by omega) hPv
        (fun hc => PRes.noConfusion hc)
    rw [hPvF]
    dsimp only
    show parseRun ((f2 + 1) + 1) (.strct (acc ++ [(n, v)])) stF2 = _
    rw [parseRun.eq_19, hscanC]
    dsimp only
    rw [if_neg (by decide), if_pos rfl]
  | cons p2 fs2 ih =>
    intro n v acc st l hfn hrtv hpv helems hRepr hsep hok
    rcases p2 with ⟨n2, v2⟩
    rw [structBody_cons] at hRepr
    simp only [List.cons_append, List.append_assoc] at hRepr
    obtain ⟨hfn2, hrt2, hp2⟩ := helems (n2, v2) (List.mem_cons_self _ fs2)
    simp only [fieldNameOk, Bool.and_eq_true, decide_eq_true_eq] at hfn
    obtain ⟨hid, hnk⟩ := hfn
    obtain ⟨hne1, hne2, hne3⟩ := notKeyword_facts n hnk
    have hid2 : identOk n2 = true := by
      have h2 := hfn2
      simp only [fieldNameOk, Bool.and_eq_true, decide_eq_true_eq] at h2
      exact h2.1
    have hsepT : SepHead (',' :: ' ' :: (n2.data ++ ':' :: ' ' ::
        ((render v2).data ++ ((structBody fs2).data ++ (cbraceCh :: l))))) :=
      sepHead_cons ',' _ (Or.inl rfl)
    have hscan : pscanIW st = ((.SYMBOL, n),
        ⟨':' :: ' ' :: ((render v).data ++ (',' :: ' ' :: (n2.data ++
          ':' :: ' ' :: ((render v2).data ++ ((structBody fs2).data ++
          (cbraceCh :: l)))))), .SYMBOL, n, false⟩) := by
      refine hRepr.trans (pscanIW_fresh_tok _ .SYMBOL n _ rfl ?_ (by decide))
      exact scanCore_ident n _ hid (fun ch hch => by
        simp only [List.head?_cons, Option.some.injEq] at hch
        subst hch
        decide)
    have hSym : ∀ k : Nat, parseRun (k + 1) (.tok .SYMBOL n)
        ⟨':' :: ' ' :: ((render v).data ++ (',' :: ' ' :: (n2.data ++
          ':' :: ' ' :: ((render v2).data ++ ((structBody fs2).data ++
          (cbraceCh :: l)))))), .SYMBOL, n, false⟩ =
        (.ok (some (symbolV n)),
          ⟨' ' :: ((render v).data ++ (',' :: ' ' :: (n2.data ++
            ':' :: ' ' :: ((render v2).data ++ ((structBody fs2).data ++
            (cbraceCh :: l)))))), .COLON, ":", true⟩) := by
      intro k
      rw [parseRun.eq_5,
        pscanIW_fresh_tok _ .COLON ":" _ rfl (scanCore_colon_space _)
          (by decide)]
      dsimp only
      rw [if_neg (by decide), if_neg hne1, if_neg hne2, if_neg hne3]
      rfl
    have hReprV : Repr ⟨' ' :: ((render v).data ++ (',' :: ' ' :: (n2.data ++
        ':' :: ' ' :: ((render v2).data ++ ((structBody fs2).data ++
        (cbraceCh :: l)))))), .COLON, ":", false⟩
        ((render v).data ++ (',' :: ' ' :: (n2.data ++ ':' :: ' ' ::
          ((render v2).data ++ ((structBody fs2).data ++
          (cbraceCh :: l)))))) := by
      refine Repr_ws_cons _ _ (render_head_append v _ hrtv) ?_
        (Repr_fresh _ _ _)
      have hg := render_scan_good v _ hrtv hsepT
      exact (goodTok_ne _ hg).1
    obtain ⟨f2, stF2, hPv, hRepr2⟩ :=
      hpv _ (',' :: ' ' :: (n2.data ++ ':' :: ' ' :: ((render v2).data ++
        ((structBody fs2).data ++ (cbraceCh :: l))))) hReprV hsepT
        (streamOK_comma _)
    have hscanC : pscanIW stF2 = ((.COMMA, ","),
        ⟨' ' :: (n2.data ++ ':' :: ' ' :: ((render v2).data ++
          ((structBody fs2).data ++ (cbraceCh :: l)))),
          .COMMA, ",", false⟩) :=
      hRepr2.trans (pscanIW_fresh_tok _ .COMMA "," _ rfl
        (scanCore_comma _) (by decide))
    have hReprY : Repr ⟨' ' :: (n2.data ++ ':' :: ' ' :: ((render v2).data ++
        ((structBody fs2).data ++ (cbraceCh :: l)))), .COMMA, ",", false⟩
        (n2.data ++ ':' :: ' ' :: ((render v2).data ++
          ((structBody fs2).data ++ (cbraceCh :: l)))) := by
      refine Repr_ws_cons _ _ (ident_head_append n2 _ hid2) ?_
        (Repr_fresh _ _ _)
      rw [scanCore_ident n2 _ hid2 (fun ch hch => by
        simp only [List.head?_cons, Option.some.injEq] at hch
        subst hch
        decide)]
      exact fun h => Token.noConfusion h
    obtain ⟨f3, stF, hP3, hReprF⟩ :=
      ih n2 v2 (acc ++ [(n, v)]) _ l hfn2 hrt2 hp2
        (fun p hp => helems p (List.mem_cons_of_mem _ hp)) hReprY hsep hok
    refine ⟨f2 + f3 + 3, stF, ?_, hReprF⟩
    show parseRun ((f2 + f3 + 3) + 1) (.strct acc) st = _
    rw [parseRun.eq_19, hscan]
    dsimp only
    rw [if_neg (by decide), if_neg (by decide), if_neg (by decide)]
    rw [show (f2 + f3 + 3 : Nat) = (f2 + f3 + 2) + 1 from rfl,
      hSym (f2 + f3 + 2)]
    dsimp only
    rw [if_neg (fun hcon => hcon.1 rfl)]
    rw [pscanIW_buffered ⟨' ' :: ((render v).data ++ (',' :: ' ' ::
      (n2.data ++ ':' :: ' ' :: ((render v2).data ++
      ((structBody fs2).data ++ (cbraceCh :: l)))))),
      .COLON, ":", true⟩ rfl (fun h => Token.noConfusion h)]
    dsimp only
    rw [if_neg (by simp)]
    have hPvF : parseRun ((f2 + f3 + 2) + 1) .top
        ⟨' ' :: ((render v).data ++ (',' :: ' ' :: (n2.data ++
          ':' :: ' ' :: ((render v2).data ++ ((structBody fs2).data ++
          (cbraceCh :: l)))))), .COLON, ":", false⟩ =
        (.ok (some v), stF2) :=
      parseRun_mono_le (f2 + 1) ((f2 + f3 + 2) + 1) _ _ _ _ (by omega) hPv
        (fun hc => PRes.noConfusion hc)
    rw [hPvF]
    dsimp only
    show parseRun ((f2 + f3 + 2) + 1) (.strct (acc ++ [(n, v)])) stF2 = _
    rw [parseRun.eq_19, hscanC]
    dsimp only
    rw [if_neg (by decide), if_neg (by decide), if_pos rfl]
    have hP3F : parseRun (f2 + f3 + 2) (.strct (acc ++ [(n, v)]))
        ⟨' ' :: (n2.data ++ ':' :: ' ' :: ((render v2).data ++
          ((structBody fs2).data ++ (cbraceCh :: l)))),
          .COMMA, ",", false⟩ =
        (.ok (some (structV ((acc ++ [(n, v)]) ++ (n2, v2) :: fs2))), stF) :=
      parseRun_mono_le (f3 + 1) (f2 + f3 + 2) _ _ _ _ (by omega) hP3
        (fun hc => PRes.noConfusion hc)
    rw [hP3F]
    simp [List.append_assoc]

theorem sepHead_identFollow (l : List Char) (hsep : SepHead l) :
    ∀ ch, l.head? = some ch → identChar ch = false ∧ ch ≠ eofCh := by
  intro ch hch
  have h := sepHead_facts l hsep ch hch
  exact ⟨h.1, h.2.2.1⟩

theorem parsesTop_null : ParsesTop (Value.mk .NullType [] 0 0 "" [] []) := by
  intro stP l hRepr hsep hok
  have hsc : scanCore
      ((render (Value.mk .NullType [] 0 0 "" [] [])).data ++ l) =
      ((.SYMBOL, "null"), l) := by
    rw [show (render (Value.mk .NullType [] 0 0 "" [] [])).data =
      "null".data from by simp [render]]
    exact scanCore_ident "null" l (by decide) (sepHead_identFollow l hsep)
  have hscan : pscanIW stP =
      ((.SYMBOL, "null"), ⟨l, .SYMBOL, "null", false⟩) :=
    hRepr.trans (pscanIW_fresh_tok _ .SYMBOL "null" l rfl hsc (by decide))
  rcases hB : pscanIW (initPState l) with ⟨⟨tn, sn⟩, stN⟩
  have hok2 := hok
  unfold StreamOK at hok2
  rw [hB] at hok2
  dsimp only at hok2
  have hscanA : pscanIW ⟨l, .SYMBOL, "null", false⟩ = ((tn, sn), stN) :=
    (Repr_fresh l .SYMBOL "null").trans hB
  refine ⟨1, punscan stN, ?_, Repr_punscan l tn sn stN hB hok2.1⟩
  show parseRun (1 + 1) .top stP = _
  rw [parseRun.eq_2, hscan]
  dsimp only
  show parseRun (0 + 1) (.tok .SYMBOL "null") ⟨l, .SYMBOL, "null", false⟩ = _
  rw [parseRun.eq_5, hscanA]
  dsimp only
  rw [if_neg hok2.2, if_neg (by decide), if_neg (by decide), if_pos rfl]
  rfl

theorem parsesTop_false : ParsesTop (Value.mk .BoolType [] 0 0 "" [] []) := by
  intro stP l hRepr hsep hok
  have hsc : scanCore
      ((render (Value.mk .BoolType [] 0 0 "" [] [])).data ++ l) =
      ((.SYMBOL, "false"), l) := by
    rw [show (render (Value.mk .BoolType [] 0 0 "" [] [])).data =
      "false".data from by simp [render]]
    exact scanCore_ident "false" l (by decide) (sepHead_identFollow l hsep)
  have hscan : pscanIW stP =
      ((.SYMBOL, "false"), ⟨l, .SYMBOL, "false", false⟩) :=
    hRepr.trans (pscanIW_fresh_tok _ .SYMBOL "false" l rfl hsc (by decide))
  rcases hB : pscanIW (initPState l) with ⟨⟨tn, sn⟩, stN⟩
  have hok2 := hok
  unfold StreamOK at hok2
  rw [hB] at hok2
  dsimp only at hok2
  have hscanA : pscanIW ⟨l, .SYMBOL, "false", false⟩ = ((tn, sn), stN) :=
    (Repr_fresh l .SYMBOL "false").trans hB
  refine ⟨1, punscan stN, ?_, Repr_punscan l tn sn stN hB hok2.1⟩
  show parseRun (1 + 1) .top stP = _
  rw [parseRun.eq_2, hscan]
  dsimp only
  show parseRun (0 + 1) (.tok .SYMBOL "false")
    ⟨l, .SYMBOL, "false", false⟩ = _
  rw [parseRun.eq_5, hscanA]
  dsimp only
  rw [if_neg hok2.2, if_neg (by decide), if_pos rfl]
  rfl

theorem parsesTop_true : ParsesTop (Value.mk .BoolType [] 1 0 "" [] []) := by
  intro stP l hRepr hsep hok
  have hsc : scanCore
      ((render (Value.mk .BoolType [] 1 0 "" [] [])).data ++ l) =
      ((.SYMBOL, "true"), l) := by
    rw [show (render (Value.mk .BoolType [] 1 0 "" [] [])).data =
      "true".data from by simp [render]]
    exact scanCore_ident "true" l (by decide) (sepHead_identFollow l hsep)
  have hscan : pscanIW stP =
      ((.SYMBOL, "true"), ⟨l, .SYMBOL, "true", false⟩) :=
    hRepr.trans (pscanIW_fresh_tok _ .SYMBOL "true" l rfl hsc (by decide))
  rcases hB : pscanIW (initPState l) with ⟨⟨tn, sn⟩, stN⟩
  have hok2 := hok
  unfold StreamOK at hok2
  rw [hB] at hok2
  dsimp only at hok2
  have hscanA : pscanIW ⟨l, .SYMBOL, "true", false⟩ = ((tn, sn), stN) :=
    (Repr_fresh l .SYMBOL "true").trans hB
  refine ⟨1, punscan stN, ?_, Repr_punscan l tn sn stN hB hok2.1⟩
  show parseRun (1 + 1) .top stP = _
  rw [parseRun.eq_2, hscan]
  dsimp only
  show parseRun (0 + 1) (.tok .SYMBOL "true") ⟨l, .SYMBOL, "true", false⟩ = _
  rw [parseRun.eq_5, hscanA]
  dsimp only
  rw [if_neg hok2.2, if_pos rfl]
  rfl

theorem parsesTop_int (i : Int) (h0 : 0 ≤ i)
    (h1 : i < 9223372036854775808) :
    ParsesTop (Value.mk .IntType [] i 0 "" [] []) := by
  intro stP l hRepr hsep hok
  have hnum : ∀ ch, l.head? = some ch →
      ch ∉ decDigits ∧ ch ≠ eofCh ∧ ch ≠ 'x' ∧ ch ≠ 'b' := by
    intro ch hch
    have h := sepHead_facts l hsep ch hch
    exact ⟨h.2.1, h.2.2.1, h.2.2.2.1, h.2.2.2.2⟩
  have hsc : scanCore
      ((render (Value.mk .IntType [] i 0 "" [] [])).data ++ l) =
      ((.NUMBER, intDec i), l) := by
    rw [show (render (Value.mk .IntType [] i 0 "" [] [])).data =
      (intDec i).data from by simp [render]]
    exact scanCore_intDec i l h0 hnum
  have hscan : pscanIW stP =
      ((.NUMBER, intDec i), ⟨l, .NUMBER, intDec i, false⟩) :=
    hRepr.trans (pscanIW_fresh_tok _ .NUMBER (intDec i) l rfl hsc (by decide))
  refine ⟨1, ⟨l, .NUMBER, intDec i, false⟩, ?_, Repr_fresh l _ _⟩
  show parseRun (1 + 1) .top stP = _
  rw [parseRun.eq_2, hscan]
  dsimp only
  show parseRun (0 + 1) (.tok .NUMBER (intDec i))
    ⟨l, .NUMBER, intDec i, false⟩ = _
  rw [parseRun.eq_15]
  rw [numberResult_intDec i h0 h1]
  rfl

theorem parsesTop_string (tx : String) (hok0 : strOk tx = true) :
    ParsesTop (Value.mk .StringType [] 0 0 tx [] []) := by
  intro stP l hRepr hsep hok
  have hsc : scanCore
      ((render (Value.mk .StringType [] 0 0 tx [] [])).data ++ l) =
      ((.STRING, tx), l) := by
    rw [show (render (Value.mk .StringType [] 0 0 tx [] [])).data =
      (quoteGo tx).data from by simp [render]]
    exact scanCore_stringTok tx l hok0
  have hscan : pscanIW stP = ((.STRING, tx), ⟨l, .STRING, tx, false⟩) :=
    hRepr.trans (pscanIW_fresh_tok _ .STRING tx l rfl hsc (by decide))
  refine ⟨1, ⟨l, .STRING, tx, false⟩, ?_, Repr_fresh l _ _⟩
  show parseRun (1 + 1) .top stP = _
  rw [parseRun.eq_2, hscan]
  dsimp only
  show parseRun (0 + 1) (.tok .STRING tx) ⟨l, .STRING, tx, false⟩ = _
  rw [parseRun.eq_16]
  rfl

theorem parsesTop_symbol (tx : String) (hok0 : symOk tx = true) :
    ParsesTop (Value.mk .SymbolType [] 0 0 tx [] []) := by
  intro stP l hRepr hsep hok
  simp only [symOk, Bool.and_eq_true, decide_eq_true_eq] at hok0
  have hne : tx.data ≠ [] := by
    have h1 := hok0.1.1
    simp only [Bool.not_eq_true'] at h1
    simpa [List.isEmpty_iff] using h1
  obtain ⟨hne1, hne2, hne3⟩ := notKeyword_facts tx hok0.2
  have hsc : scanCore
      ((render (Value.mk .SymbolType [] 0 0 tx [] [])).data ++ l) =
      ((.SYMBOL, tx), l) := by
    have hstream : (render (Value.mk .SymbolType [] 0 0 tx [] [])).data ++ l
        = squote :: (tx.data ++ squote :: l) := by
      rw [show (render (Value.mk .SymbolType [] 0 0 tx [] [])).data =
        squote :: (tx.data ++ [squote]) from by
          simp [render, symbolToString_data]]
      simp [List.append_assoc]
    rw [hstream]
    exact scanCore_symbolTok tx l hne hok0.1.2
  have hscan : pscanIW stP = ((.SYMBOL, tx), ⟨l, .SYMBOL, tx, false⟩) :=
    hRepr.trans (pscanIW_fresh_tok _ .SYMBOL tx l rfl hsc (by decide))
  rcases hB : pscanIW (initPState l) with ⟨⟨tn, sn⟩, stN⟩
  have hok2 := hok
  unfold StreamOK at hok2
  rw [hB] at hok2
  dsimp only at hok2
  have hscanA : pscanIW ⟨l, .SYMBOL, tx, false⟩ = ((tn, sn), stN) :=
    (Repr_fresh l .SYMBOL tx).trans hB
  refine ⟨1, punscan stN, ?_, Repr_punscan l tn sn stN hB hok2.1⟩
  show parseRun (1 + 1) .top stP = _
  rw [parseRun.eq_2, hscan]
  dsimp only
  show parseRun (0 + 1) (.tok .SYMBOL tx) ⟨l, .SYMBOL, tx, false⟩ = _
  rw [parseRun.eq_5, hscanA]
  dsimp only
  rw [if_neg hok2.2, if_neg hne1, if_neg hne2, if_neg hne3]
  rfl

theorem parsesTop_list (sq : List Value)
    (helems : ∀ e ∈ sq, RTok e = true ∧ ParsesTop e) :
    ParsesTop (Value.mk .ListType [] 0 0 "" sq []) := by
  intro stP l hRepr hsep hok
  rcases sq with _ | ⟨v1, vs⟩
  · have hsc : scanCore
        ((render (Value.mk .ListType [] 0 0 "" [] [])).data ++ l) =
        ((.OPEN_BRACKET, "["), ']' :: l) := by
      rw [show (render (Value.mk .ListType [] 0 0 "" [] [])).data =
        ['[', ']'] from by simp [render, seqToString_nil]]
      exact scanCore_obracket (']' :: l)
    have hscan : pscanIW stP = ((.OPEN_BRACKET, "["),
        ⟨']' :: l, .OPEN_BRACKET, "[", false⟩) :=
      hRepr.trans (pscanIW_fresh_tok _ .OPEN_BRACKET "[" _ rfl hsc
        (by decide))
    have hscan2 : pscanIW ⟨']' :: l, .OPEN_BRACKET, "[", false⟩ =
        ((.CLOSE_BRACKET, "]"), ⟨l, .CLOSE_BRACKET, "]", false⟩) :=
      pscanIW_fresh_tok _ .CLOSE_BRACKET "]" l rfl (scanCore_cbracket l)
        (by decide)
    refine ⟨2, ⟨l, .CLOSE_BRACKET, "]", false⟩, ?_, Repr_fresh l _ _⟩
    show parseRun (2 + 1) .top stP = _
    rw [parseRun.eq_2, hscan]
    dsimp only
    show parseRun (1 + 1) (.tok .OPEN_BRACKET "[")
      ⟨']' :: l, .OPEN_BRACKET, "[", false⟩ = _
    rw [parseRun.eq_7]
    show parseRun (0 + 1) (.seq .CLOSE_BRACKET [])
      ⟨']' :: l, .OPEN_BRACKET, "[", false⟩ = _
    rw [parseRun.eq_18, hscan2]
    dsimp only
    rw [if_neg (by decide), if_pos (Or.inl rfl), if_neg (by simp),
      if_neg (by decide)]
    rfl
  · obtain ⟨hrt1, hp1⟩ := helems v1 (List.mem_cons_self v1 vs)
    have hstream :
        (render (Value.mk .ListType [] 0 0 "" (v1 :: vs) [])).data ++ l =
        '[' :: ((render v1).data ++ ((seqBody ',' vs).data ++ (']' :: l)))
        := by
      rw [show (render (Value.mk .ListType [] 0 0 "" (v1 :: vs) [])).data =
        '[' :: ((render v1).data ++ ((seqBody ',' vs).data ++ [']'])) from
        by simp [render, seqToString_cons]]
      simp [List.append_assoc]
    rw [hstream] at hRepr
    have hscan : pscanIW stP = ((.OPEN_BRACKET, "["),
        ⟨(render v1).data ++ ((seqBody ',' vs).data ++ (']' :: l)),
          .OPEN_BRACKET, "[", false⟩) :=
      hRepr.trans (pscanIW_fresh_tok _ .OPEN_BRACKET "[" _ rfl
        (scanCore_obracket _) (by decide))
    obtain ⟨fL, stF, hPL, hReprF⟩ :=
      seqLoop_list vs v1 [] _ l hrt1 hp1
        (fun e he => helems e (List.mem_cons_of_mem _ he))
        (Repr_fresh _ _ _) hsep hok
    refine ⟨fL + 2, stF, ?_, hReprF⟩
    show parseRun ((fL + 2) + 1) .top stP = _
    rw [parseRun.eq_2, hscan]
    dsimp only
    show parseRun ((fL + 1) + 1) (.tok .OPEN_BRACKET "[")
      ⟨(render v1).data ++ ((seqBody ',' vs).data ++ (']' :: l)),
        .OPEN_BRACKET, "[", false⟩ = _
    rw [parseRun.eq_7, hPL]
    rfl

theorem parsesTop_sexp (sq : List Value)
    (helems : ∀ e ∈ sq, RTok e = true ∧ ParsesTop e) :
    ParsesTop (Value.mk .SexpType [] 0 0 "" sq []) := by
  intro stP l hRepr hsep hok
  rcases sq with _ | ⟨v1, vs⟩
  · have hsc : scanCore
        ((render (Value.mk .SexpType [] 0 0 "" [] [])).data ++ l) =
        ((.OPEN_PAREN, "("), ')' :: l) := by
      rw [show (render (Value.mk .SexpType [] 0 0 "" [] [])).data =
        ['(', ')'] from by simp [render, seqToString_nil]]
      exact scanCore_oparen (')' :: l)
    have hscan : pscanIW stP = ((.OPEN_PAREN, "("),
        ⟨')' :: l, .OPEN_PAREN, "(", false⟩) :=
      hRepr.trans (pscanIW_fresh_tok _ .OPEN_PAREN "(" _ rfl hsc
        (by decide))
    have hscan2 : pscanIW ⟨')' :: l, .OPEN_PAREN, "(", false⟩ =
        ((.CLOSE_PAREN, ")"), ⟨l, .CLOSE_PAREN, ")", false⟩) :=
      pscanIW_fresh_tok _ .CLOSE_PAREN ")" l rfl (scanCore_cparen l)
        (by decide)
    refine ⟨2, ⟨l, .CLOSE_PAREN, ")", false⟩, ?_, Repr_fresh l _ _⟩
    show parseRun (2 + 1) .top stP = _
    rw [parseRun.eq_2, hscan]
    dsimp only
    show parseRun (1 + 1) (.tok .OPEN_PAREN "(")
      ⟨')' :: l, .OPEN_PAREN, "(", false⟩ = _
    rw [parseRun.eq_6]
    show parseRun (0 + 1) (.seq .CLOSE_PAREN [])
      ⟨')' :: l, .OPEN_PAREN, "(", false⟩ = _
    rw [parseRun.eq_18, hscan2]
    dsimp only
    rw [if_neg (by decide), if_pos (Or.inr rfl), if_neg (by simp),
      if_pos rfl]
    rfl
  · obtain ⟨hrt1, hp1⟩ := helems v1 (List.mem_cons_self v1 vs)
    have hstream :
        (render (Value.mk .SexpType [] 0 0 "" (v1 :: vs) [])).data ++ l =
        '(' :: ((render v1).data ++ ((seqBody eofCh vs).data ++ (')' :: l)))
        := by
      rw [show (render (Value.mk .SexpType [] 0 0 "" (v1 :: vs) [])).data =
        '(' :: ((render v1).data ++ ((seqBody eofCh vs).data ++ [')'])) from
        by simp [render, seqToString_cons]]
      simp [List.append_assoc]
    rw [hstream] at hRepr
    have hscan : pscanIW stP = ((.OPEN_PAREN, "("),
        ⟨(render v1).data ++ ((seqBody eofCh vs).data ++ (')' :: l)),
          .OPEN_PAREN, "(", false⟩) :=
      hRepr.trans (pscanIW_fresh_tok _ .OPEN_PAREN "(" _ rfl
        (scanCore_oparen _) (by decide))
    obtain ⟨fL, stF, hPL, hReprF⟩ :=
      seqLoop_sexp vs v1 [] _ l hrt1 hp1
        (fun e he => helems e (List.mem_cons_of_mem _ he))
        (Repr_fresh _ _ _) hsep hok
    refine ⟨fL + 2, stF, ?_, hReprF⟩
    show parseRun ((fL + 2) + 1) .top stP = _
    rw [parseRun.eq_2, hscan]
    dsimp only
    show parseRun ((fL + 1) + 1) (.tok .OPEN_PAREN "(")
      ⟨(render v1).data ++ ((seqBody eofCh vs).data ++ (')' :: l)),
        .OPEN_PAREN, "(", false⟩ = _
    rw [parseRun.eq_6, hPL]
    rfl

theorem parsesTop_struct_bare (st0 : List (String × Value))
    (helems : ∀ p ∈ st0, fieldNameOk p.1 = true ∧ RTok p.2 = true ∧
      ParsesTop p.2) :
    ParsesTop (Value.mk .StructType [] 0 0 "" [] st0) := by
  intro stP l hRepr hsep hok
  have hrd : (render (Value.mk .StructType [] 0 0 "" [] st0)).data =
      (structToString st0).data := by
    simp [render, annotate, Value.annotations]
  rcases st0 with _ | ⟨⟨n1, w1⟩, fs⟩
  · rw [hrd, structToString_nil] at hRepr
    have hscan : pscanIW stP = ((.OPEN_BRACE, String.mk [obraceCh]),
        ⟨cbraceCh :: l, .OPEN_BRACE, String.mk [obraceCh], false⟩) :=
      hRepr.trans (pscanIW_fresh_tok _ .OPEN_BRACE (String.mk [obraceCh])
        _ rfl (scanCore_obrace (cbraceCh :: l)) (by decide))
    have hscan2 : pscanIW
        ⟨cbraceCh :: l, .OPEN_BRACE, String.mk [obraceCh], false⟩ =
        ((.CLOSE_BRACE, String.mk [cbraceCh]),
          ⟨l, .CLOSE_BRACE, String.mk [cbraceCh], false⟩) :=
      pscanIW_fresh_tok _ .CLOSE_BRACE (String.mk [cbraceCh]) l rfl
        (scanCore_cbrace l) (by decide)
    refine ⟨2, ⟨l, .CLOSE_BRACE, String.mk [cbraceCh], false⟩, ?_,
      Repr_fresh l _ _⟩
    show parseRun (2 + 1) .top stP = _
    rw [parseRun.eq_2, hscan]
    dsimp only
    show parseRun (1 + 1) (.tok .OPEN_BRACE (String.mk [obraceCh]))
      ⟨cbraceCh :: l, .OPEN_BRACE, String.mk [obraceCh], false⟩ = _
    rw [parseRun.eq_8]
    show parseRun (0 + 1) (.strct [])
      ⟨cbraceCh :: l, .OPEN_BRACE, String.mk [obraceCh], false⟩ = _
    rw [parseRun.eq_19, hscan2]
    dsimp only
    rw [if_neg (by decide), if_pos rfl]
    rfl
  · obtain ⟨hfn1, hrt1, hp1⟩ := helems (n1, w1) (List.mem_cons_self _ fs)
    have hstream :
        (render (Value.mk .StructType [] 0 0 "" [] ((n1, w1) :: fs))).data
          ++ l = obraceCh :: (n1.data ++ (':' :: ' ' ::
          ((render w1).data ++ ((structBody fs).data ++ (cbraceCh :: l)))))
        := by
      rw [hrd, structToString_cons]
      simp [List.append_assoc]
    rw [hstream] at hRepr
    have hscan : pscanIW stP = ((.OPEN_BRACE, String.mk [obraceCh]),
        ⟨n1.data ++ (':' :: ' ' :: ((render w1).data ++
          ((structBody fs).data ++ (cbraceCh :: l)))),
          .OPEN_BRACE, String.mk [obraceCh], false⟩) :=
      hRepr.trans (pscanIW_fresh_tok _ .OPEN_BRACE (String.mk [obraceCh])
        _ rfl (scanCore_obrace _) (by decide))
    obtain ⟨fS, stF, hPS, hReprF⟩ :=
      structLoop fs n1 w1 [] _ l hfn1 hrt1 hp1
        (fun p hp => helems p (List.mem_cons_of_mem _ hp))
        (Repr_fresh _ _ _) hsep hok
    refine ⟨fS + 2, stF, ?_, hReprF⟩
    show parseRun ((fS + 2) + 1) .top stP = _
    rw [parseRun.eq_2, hscan]
    dsimp only
    show parseRun ((fS + 1) + 1) (.tok .OPEN_BRACE (String.mk [obraceCh]))
      ⟨n1.data ++ (':' :: ' ' :: ((render w1).data ++
        ((structBody fs).data ++ (cbraceCh :: l)))),
        .OPEN_BRACE, String.mk [obraceCh], false⟩ = _
    rw [parseRun.eq_8, hPS]
    rfl

theorem parsesTop_struct_ann (a : String) (hid : identOk a = true)
    (st0 : List (String × Value))
    (hbare : ParsesTop (Value.mk .StructType [] 0 0 "" [] st0)) :
    ParsesTop (Value.mk .StructType [a] 0 0 "" [] st0) := by
  intro stP l hRepr hsep hok
  have hrd : (render (Value.mk .StructType [a] 0 0 "" [] st0)).data =
      a.data ++ (':' :: ':' :: (structToString st0).data) := by
    have hcc : ("::" : String).data = [':', ':'] := rfl
    simp [render, annotate, Value.annotations, String.join,
      String.data_append, hcc]
  have hstream :
      (render (Value.mk .StructType [a] 0 0 "" [] st0)).data ++ l =
      a.data ++ (':' :: ':' :: ((structToString st0).data ++ l)) := by
    rw [hrd]
    simp [List.append_assoc]
  rw [hstream] at hRepr
  have hscan : pscanIW stP = ((.SYMBOL, a),
      ⟨':' :: ':' :: ((structToString st0).data ++ l),
        .SYMBOL, a, false⟩) :=
    hRepr.trans (pscanIW_fresh_tok _ .SYMBOL a _ rfl
      (scanCore_ident a _ hid (fun ch hch => by
        simp only [List.head?_cons, Option.some.injEq] at hch
        subst hch
        decide)) (by decide))
  have hscanA : pscanIW ⟨':' :: ':' :: ((structToString st0).data ++ l),
      .SYMBOL, a, false⟩ = ((.DOUBLE_COLON, "::"),
      ⟨(structToString st0).data ++ l, .DOUBLE_COLON, "::", false⟩) :=
    pscanIW_fresh_tok _ .DOUBLE_COLON "::" _ rfl (scanCore_dcolon _)
      (by decide)
  have hReprB : Repr ⟨(structToString st0).data ++ l,
      .DOUBLE_COLON, "::", false⟩
      ((render (Value.mk .StructType [] 0 0 "" [] st0)).data ++ l) := by
    rw [show (render (Value.mk .StructType [] 0 0 "" [] st0)).data =
      (structToString st0).data from by
        simp [render, annotate, Value.annotations]]
    exact Repr_fresh _ _ _
  obtain ⟨f0, stF, hP0, hReprF⟩ := hbare _ l hReprB hsep hok
  refine ⟨f0 + 2, stF, ?_, hReprF⟩
  show parseRun ((f0 + 2) + 1) .top stP = _
  rw [parseRun.eq_2, hscan]
  dsimp only
  show parseRun ((f0 + 1) + 1) (.tok .SYMBOL a)
    ⟨':' :: ':' :: ((structToString st0).data ++ l), .SYMBOL, a, false⟩ = _
  rw [parseRun.eq_5, hscanA]
  dsimp only
  rw [if_pos rfl, hP0]
  rfl

theorem RTlist_mem (vs : List Value) (e : Value) (he : e ∈ vs)
    (h : RTlist vs = true) : RTok e = true := by
  induction vs with
  | nil => cases he
  | cons v vs ih =>
    simp only [RTlist, Bool.and_eq_true] at h
    rcases List.mem_cons.mp he with he1 | he2
    · subst he1
      exact h.1
    · exact ih he2 h.2

theorem RTfields_mem (fs : List (String × Value)) (p : String × Value)
    (hp : p ∈ fs) (h : RTfields fs = true) :
    fieldNameOk p.1 = true ∧ RTok p.2 = true := by
  induction fs with
  | nil => cases hp
  | cons f fs ih =>
    rcases f with ⟨n, v⟩
    simp only [RTfields, Bool.and_eq_true] at h
    rcases List.mem_cons.mp hp with hp1 | hp2
    · subst hp1
      exact ⟨h.1.1, h.1.2⟩
    · exact ih hp2 h.2

theorem parsesTop_of_RT (N : Nat) :
    ∀ v : Value, sizeOf v ≤ N → RTok v = true → ParsesTop v := by
  induction N with
  | zero =>
    intro v hsz hrt
    rcases v with ⟨t, anns, i, f, tx, sq, st0⟩
    simp at hsz
  | succ N ihN =>
    intro v hsz hrt
    rcases v with ⟨t, anns, i, f, tx, sq, st0⟩
    cases t
    case NullType =>
      simp only [RTok, Bool.and_eq_true, beq_iff_eq, List.isEmpty_iff,
        String.isEmpty_iff] at hrt
      obtain ⟨⟨⟨⟨⟨ha, hi⟩, hf⟩, htx⟩, hsq⟩, hst⟩ := hrt
      subst ha; subst hi; subst hf; subst htx; subst hsq; subst hst
      exact parsesTop_null
    case BoolType =>
      simp only [RTok, Bool.and_eq_true, Bool.or_eq_true, beq_iff_eq,
        List.isEmpty_iff, String.isEmpty_iff] at hrt
      obtain ⟨⟨⟨⟨⟨ha, hi⟩, hf⟩, htx⟩, hsq⟩, hst⟩ := hrt
      subst ha; subst hf; subst htx; subst hsq; subst hst
      rcases hi with hi | hi
      · subst hi
        exact parsesTop_false
      · subst hi
        exact parsesTop_true
    case IntType =>
      simp only [RTok, Bool.and_eq_true, beq_iff_eq, List.isEmpty_iff,
        String.isEmpty_iff, decide_eq_true_eq] at hrt
      obtain ⟨⟨⟨⟨⟨⟨ha, h0⟩, h1⟩, hf⟩, htx⟩, hsq⟩, hst⟩ := hrt
      subst ha; subst hf; subst htx; subst hsq; subst hst
      exact parsesTop_int i h0 h1
    case FloatType => simp [RTok] at hrt
    case StringType =>
      simp only [RTok, Bool.and_eq_true, beq_iff_eq, List.isEmpty_iff] at hrt
      obtain ⟨⟨⟨⟨⟨ha, hok0⟩, hi⟩, hf⟩, hsq⟩, hst⟩ := hrt
      subst ha; subst hi; subst hf; subst hsq; subst hst
      exact parsesTop_string tx hok0
    case SymbolType =>
      simp only [RTok, Bool.and_eq_true, beq_iff_eq, List.isEmpty_iff] at hrt
      obtain ⟨⟨⟨⟨⟨ha, hok0⟩, hi⟩, hf⟩, hsq⟩, hst⟩ := hrt
      subst ha; subst hi; subst hf; subst hsq; subst hst
      exact parsesTop_symbol tx hok0
    case ListType =>
      simp only [RTok, Bool.and_eq_true, beq_iff_eq, List.isEmpty_iff,
        String.isEmpty_iff] at hrt
      obtain ⟨⟨⟨⟨⟨ha, hi⟩, hf⟩, htx⟩, hst⟩, hrtl⟩ := hrt
      subst ha; subst hi; subst hf; subst htx; subst hst
      have hsql : sizeOf sq ≤ N := by
        simp at hsz
        omega
      refine parsesTop_list sq (fun e he => ⟨RTlist_mem sq e he hrtl, ?_⟩)
      have hesz : sizeOf e < sizeOf sq := List.sizeOf_lt_of_mem he
      exact ihN e (by omega) (RTlist_mem sq e he hrtl)
    case SexpType =>
      simp only [RTok, Bool.and_eq_true, beq_iff_eq, List.isEmpty_iff,
        String.isEmpty_iff] at hrt
      obtain ⟨⟨⟨⟨⟨ha, hi⟩, hf⟩, htx⟩, hst⟩, hrtl⟩ := hrt
      subst ha; subst hi; subst hf; subst htx; subst hst
      have hsql : sizeOf sq ≤ N := by
        simp at hsz
        omega
      refine parsesTop_sexp sq (fun e he => ⟨RTlist_mem sq e he hrtl, ?_⟩)
      have hesz : sizeOf e < sizeOf sq := List.sizeOf_lt_of_mem he
      exact ihN e (by omega) (RTlist_mem sq e he hrtl)
    case StructType =>
      simp only [RTok, Bool.and_eq_true, beq_iff_eq, List.isEmpty_iff,
        String.isEmpty_iff] at hrt
      obtain ⟨⟨⟨⟨⟨hanns, hi⟩, hf⟩, htx⟩, hsq⟩, hrtf⟩ := hrt
      subst hi; subst hf; subst htx; subst hsq
      have hstl : sizeOf st0 ≤ N := by
        simp at hsz
        omega
      have helems : ∀ p ∈ st0, fieldNameOk p.1 = true ∧ RTok p.2 = true ∧
          ParsesTop p.2 := by
        intro p hp
        obtain ⟨hfn, hrtp⟩ := RTfields_mem st0 p hp hrtf
        have hpsz : sizeOf p < sizeOf st0 := List.sizeOf_lt_of_mem hp
        have hp2 : sizeOf p.2 < sizeOf p := by
          rcases p with ⟨n, w⟩
          simp
        exact ⟨hfn, hrtp, ihN p.2 (by omega) hrtp⟩
      rcases anns with _ | ⟨a, anns2⟩
      · exact parsesTop_struct_bare st0 helems
      · rcases anns2 with _ | ⟨a2, anns3⟩
        · have hid : identOk a = true := hanns
          exact parsesTop_struct_ann a hid st0
            (parsesTop_struct_bare st0 helems)
        · simp [annsOk] at hanns

/-- C1 (amended): the round-trip guarantee does not hold for every value a
successful parse can produce (see `c1_counterexample`: an annotated
non-struct value renders without its annotation), but it does hold on the
renderable class `RTok`: for every such value, parsing the rendered text
with enough fuel succeeds and returns a structurally equal value, and the
result is stable in the fuel. -/
theorem c1_round_trip (v : Value) (hrt : RTok v = true) :
    ∃ f0 stF, ∀ f, f0 ≤ f →
      parseRun f .top (initPState (render v).data) = (.ok (some v), stF) := by
  have hp : ParsesTop v := parsesTop_of_RT (sizeOf v) v le_rfl hrt
  obtain ⟨f1, stF, hP, _⟩ := hp (initPState (render v).data) []
    (by rw [List.append_nil]; exact Repr_fresh _ _ _) sepHead_nil streamOK_nil
  exact ⟨f1 + 1, stF, fun f hf =>
    parseRun_mono_le (f1 + 1) f _ _ _ _ hf hP
      (fun hc => PRes.noConfusion hc)⟩

/-- Witness for C1 at a concrete annotated one-field struct. -/
theorem c1_witness :
    RTok (Value.mk .StructType ["a"] 0 0 "" []
      [("x", Value.mk .IntType [] 5 0 "" [] [])]) = true ∧
    ∃ f0 stF, ∀ f, f0 ≤ f →
      parseRun f .top (initPState
        (render (Value.mk .StructType ["a"] 0 0 "" []
          [("x", Value.mk .IntType [] 5 0 "" [] [])])).data) =
      (.ok (some (Value.mk .StructType ["a"] 0 0 "" []
        [("x", Value.mk .IntType [] 5 0 "" [] [])])), stF) := by
  have hrt : RTok (Value.mk .StructType ["a"] 0 0 "" []
      [("x", Value.mk .IntType [] 5 0 "" [] [])]) = true := by
    simp only [RTok, RTfields, annsOk]
    decide
  exact ⟨hrt, c1_round_trip _ hrt⟩

/-- Counterexample to C1 as stated: `a::5` parses successfully to an
annotated Int, but rendering that value yields `5`, which parses back to
a Value that is not structurally equal (the annotation is lost). -/
theorem c1_counterexample :
    parseString0 "a::5" =
      .ok (some (Value.mk .IntType ["a"] 5 0 "" [] [])) ∧
    render (Value.mk .IntType ["a"] 5 0 "" [] []) = "5" ∧
    parseString0 "5" = .ok (some (Value.mk .IntType [] 5 0 "" [] [])) ∧
    Value.mk .IntType [] 5 0 "" [] [] ≠
      Value.mk .IntType ["a"] 5 0 "" [] [] := by
  refine ⟨rfl, ?_, rfl, ?_⟩
  · rw [show render (Value.mk .IntType ["a"] 5 0 "" [] []) = intDec 5 from
      by simp [render]]
    rfl
  · intro h
    have h2 := congrArg Value.annotations h
    simp [Value.annotations] at h2

end Ion
